import Mathlib

/-!
Verification of the dependency-graph engine of the RSWE-V1 repository
(`src/core/DependencyGraphManager.ts`).

The TypeScript class `DependencyGraphManager` is embedded shallowly:

* strings are `List Char`; the regular expressions used by the import and
  export extractors are hand-compiled into deterministic scanners (each of
  the patterns in the source is free of genuine backtracking except the
  Java one, which is compiled into an explicit last-dot split);
* the JavaScript `Map` (insertion ordered, one entry per key) becomes an
  association list with JS `set`/`get`/`delete` semantics;
* the mutable class becomes a `ManagerState` record; methods that `throw`
  become `Except RSWEError`;
* `fs.readFile` is modelled by an optional `content` field carried on
  `ProjectFile` (a `none` content stands for an unreadable file, which the
  source catches and ignores);
* the two depth-first recursions (`_detectCycle`, `_calculateNodeDepth`)
  terminate in the source because the visited set grows; here they take a
  fuel argument which every call site instantiates with `graph.size + 1`,
  an upper bound on the recursion depth actually reached.

TS union string types (`'source' | 'test' | ...`) are kept as `String`
values, matching the source literals.
-/

namespace DepGraph

/-- Shorthand: the character list of a string literal. -/
def str (s : String) : List Char := s.toList

/-- The `{` character (written via its code point). -/
def lbrace : Char := Char.ofNat 123

/-- The `}` character (written via its code point). -/
def rbrace : Char := Char.ofNat 125

/-- The single-quote character. -/
def squote : Char := Char.ofNat 39

/-- The double-quote character. -/
def dquote : Char := Char.ofNat 34

/-- JavaScript `\s` (ASCII part): space, tab, newline, CR, VT, FF. -/
def isJsWs (c : Char) : Bool :=
  c = ' ' || c = '\t' || c = '\n' || c = '\r' || c = Char.ofNat 11 || c = Char.ofNat 12

/-- Regex `\w`: `[A-Za-z0-9_]`. -/
def isWordChar (c : Char) : Bool :=
  c.isAlpha || c.isDigit || c = '_'

/-- Regex `[\w$]`. -/
def isWordDollar (c : Char) : Bool :=
  isWordChar c || c = '$'

/-- Regex `[a-zA-Z_$]` (JS identifier start). -/
def isIdentStart (c : Char) : Bool :=
  c.isAlpha || c = '_' || c = '$'

/-- Regex `[a-zA-Z_]` (Python/Java identifier start). -/
def isPyIdentStart (c : Char) : Bool :=
  c.isAlpha || c = '_'

/-- Regex `[\w.]` (module-path character in the Python/Java patterns). -/
def isWordDot (c : Char) : Bool :=
  isWordChar c || c = '.'

/-- Either quote character, regex `['"]`. -/
def isQuote (c : Char) : Bool :=
  c = squote || c = dquote

/-- `startsWithL pre l` : does `l` start with `pre`? -/
def startsWithL : List Char → List Char → Bool
  | [], _ => true
  | _ :: _, [] => false
  | p :: ps, c :: cs => if p = c then startsWithL ps cs else false

/-- Consume the literal `pat` from the front of `l`, returning the rest. -/
def litP : List Char → List Char → Option (List Char)
  | [], l => some l
  | _ :: _, [] => none
  | p :: ps, c :: cs => if p = c then litP ps cs else none

/-- Regex `\s*`: greedily drop whitespace. -/
def dropWsL (l : List Char) : List Char :=
  l.dropWhile isJsWs

/-- Regex `\s+`: at least one whitespace character, consumed greedily. -/
def ws1 : List Char → Option (List Char)
  | [] => none
  | c :: cs => if isJsWs c then some (dropWsL cs) else none

/-- Regex `(p)+` for a character class `p`: a non-empty greedy capture,
returning the capture and the rest. -/
def cap1 (p : Char → Bool) (l : List Char) : Option (List Char × List Char) :=
  let t := l.takeWhile p
  if t.isEmpty then none else some (t, l.dropWhile p)

/-- Regex `([a-zA-Z_$][\w$]*)`: a JS identifier capture. -/
def identCap : List Char → Option (List Char × List Char)
  | [] => none
  | c :: cs =>
    if isIdentStart c then some (c :: cs.takeWhile isWordDollar, cs.dropWhile isWordDollar)
    else none

/-- Regex `([a-zA-Z_][\w.]*)`: a Python/Java module-path capture. -/
def pyModCap : List Char → Option (List Char × List Char)
  | [] => none
  | c :: cs =>
    if isPyIdentStart c then some (c :: cs.takeWhile isWordDot, cs.dropWhile isWordDot)
    else none

/-- Regex `([a-zA-Z_][\w]*)`: a Python identifier capture. -/
def pyIdentCap : List Char → Option (List Char × List Char)
  | [] => none
  | c :: cs =>
    if isPyIdentStart c then some (c :: cs.takeWhile isWordChar, cs.dropWhile isWordChar)
    else none

/-- Unanchored regex search: try the anchored matcher `m` at every start
position from the left, returning the first success (JS `String.match`
semantics for the patterns compiled here). -/
def scan {α : Type} (m : List Char → Option α) : List Char → Option α
  | [] => m []
  | c :: rest =>
    match m (c :: rest) with
    | some r => some r
    | none => scan m rest

/-- JS `String.prototype.split(sep)` for a one-character separator. -/
def splitOnChar (sep : Char) : List Char → List (List Char)
  | [] => [[]]
  | c :: t =>
    let r := splitOnChar sep t
    if c = sep then [] :: r
    else
      match r with
      | h :: t2 => (c :: h) :: t2
      | [] => [[c]]

/-- JS `String.prototype.trim()` (ASCII whitespace). -/
def jsTrim (l : List Char) : List Char :=
  ((l.dropWhile isJsWs).reverse.dropWhile isJsWs).reverse

/-- `containsSub sub l` : JS `String.prototype.includes(sub)`. -/
def containsSub (sub : List Char) : List Char → Bool
  | [] => startsWithL sub []
  | c :: rest => startsWithL sub (c :: rest) || containsSub sub rest

/-- JS `s.split(sub)[0]` for a multi-character separator: the prefix of `l`
up to the first occurrence of `sub` (all of `l` if absent). -/
def takeUntilSub (sub : List Char) : List Char → List Char
  | [] => []
  | c :: rest => if startsWithL sub (c :: rest) then [] else c :: takeUntilSub sub rest

/-- JS `c.toLowerCase()` applied characterwise. -/
def toLowerL (l : List Char) : List Char :=
  l.map Char.toLower

/-- `[...new Set(list)]`: deduplicate keeping the first occurrence of each
element, preserving order. -/
def dedupFirst : List (List Char) → List (List Char) :=
  go []
where
  /-- Worker carrying the set of already-seen elements. -/
  go (seen : List (List Char)) : List (List Char) → List (List Char)
    | [] => []
    | x :: xs => if x ∈ seen then go seen xs else x :: go (x :: seen) xs

/-- JS `Set.add`: append if absent (insertion order preserved). -/
def setAdd (l : List (List Char)) (x : List Char) : List (List Char) :=
  if x ∈ l then l else l ++ [x]

/-- JS `Set.delete`. -/
def setDelete (l : List (List Char)) (x : List Char) : List (List Char) :=
  l.filter (fun y => y ≠ x)

/-- First index of `a` in `l` (JS `Array.indexOf`, `none` for -1). -/
def firstIdx : List (List Char) → List Char → Option Nat
  | [], _ => none
  | x :: xs, a => if x = a then some 0 else (firstIdx xs a).map Nat.succ

end DepGraph

namespace DepGraph

/-- Token `import`. -/
def impTok : List Char := str "import"

/-- Token `from`. -/
def fromTok : List Char := str "from"

/-- Token `export`. -/
def expTok : List Char := str "export"

/-- Token `async`. -/
def asyncTok : List Char := str "async"

/-- `ImportInfo` of the source (field names kept). -/
structure ImportInfo where
  source : List Char
  imports : List (List Char)
  isDefaultImport : Bool
  isNamespaceImport : Bool
  lineNumber : Nat
deriving DecidableEq, Repr

/-- `ExportInfo` of the source; `type` is one of the TS string literals
`"function" | "class" | "variable" | "default"`. -/
structure ExportInfo where
  name : List Char
  type : String
  lineNumber : Nat
deriving DecidableEq, Repr

/-- Anchored matcher for `/import\s*\{([^}]+)\}\s*from\s*['"]([^'"]+)['"]/`;
returns (raw inner capture, source capture). -/
def matchNamedAt (l : List Char) : Option (List Char × List Char) :=
  match litP impTok l with
  | none => none
  | some r1 =>
    match dropWsL r1 with
    | [] => none
    | c :: r3 =>
      if c = lbrace then
        match cap1 (fun d => !(d = rbrace)) r3 with
        | none => none
        | some (inner, r4) =>
          match r4 with
          | [] => none
          | c2 :: r5 =>
            if c2 = rbrace then
              match litP fromTok (dropWsL r5) with
              | none => none
              | some r6 =>
                match dropWsL r6 with
                | [] => none
                | q1 :: r8 =>
                  if isQuote q1 then
                    match cap1 (fun d => !(isQuote d)) r8 with
                    | none => none
                    | some (src, r9) =>
                      match r9 with
                      | [] => none
                      | q2 :: _ => if isQuote q2 then some (inner, src) else none
                  else none
            else none
      else none

/-- Anchored matcher for `/import\s+([a-zA-Z_$][\w$]*)\s+from\s*['"]([^'"]+)['"]/`;
returns (identifier, source). -/
def matchDefaultAt (l : List Char) : Option (List Char × List Char) :=
  match litP impTok l with
  | none => none
  | some r1 =>
    match ws1 r1 with
    | none => none
    | some r2 =>
      match identCap r2 with
      | none => none
      | some (name, r3) =>
        match ws1 r3 with
        | none => none
        | some r4 =>
          match litP fromTok r4 with
          | none => none
          | some r5 =>
            match dropWsL r5 with
            | [] => none
            | q1 :: r6 =>
              if isQuote q1 then
                match cap1 (fun d => !(isQuote d)) r6 with
                | none => none
                | some (src, r7) =>
                  match r7 with
                  | [] => none
                  | q2 :: _ => if isQuote q2 then some (name, src) else none
              else none

/-- Anchored matcher for
`/import\s*\*\s*as\s+([a-zA-Z_$][\w$]*)\s+from\s*['"]([^'"]+)['"]/`. -/
def matchNamespaceAt (l : List Char) : Option (List Char × List Char) :=
  match litP impTok l with
  | none => none
  | some r1 =>
    match dropWsL r1 with
    | [] => none
    | c :: r2 =>
      if c = '*' then
        match litP (str "as") (dropWsL r2) with
        | none => none
        | some r3 =>
          match ws1 r3 with
          | none => none
          | some r4 =>
            match identCap r4 with
            | none => none
            | some (name, r5) =>
              match ws1 r5 with
              | none => none
              | some r6 =>
                match litP fromTok r6 with
                | none => none
                | some r7 =>
                  match dropWsL r7 with
                  | [] => none
                  | q1 :: r8 =>
                    if isQuote q1 then
                      match cap1 (fun d => !(isQuote d)) r8 with
                      | none => none
                      | some (src, r9) =>
                        match r9 with
                        | [] => none
                        | q2 :: _ => if isQuote q2 then some (name, src) else none
                    else none
      else none

/-- Anchored matcher for `/import\s*['"]([^'"]+)['"]/` (side-effect import). -/
def matchSideEffectAt (l : List Char) : Option (List Char) :=
  match litP impTok l with
  | none => none
  | some r1 =>
    match dropWsL r1 with
    | [] => none
    | q1 :: r2 =>
      if isQuote q1 then
        match cap1 (fun d => !(isQuote d)) r2 with
        | none => none
        | some (src, r3) =>
          match r3 with
          | [] => none
          | q2 :: _ => if isQuote q2 then some src else none
      else none

/-- `_parseJavaScriptImport`: the four patterns tried in source order
(named, default, namespace, side-effect), each unanchored. -/
def parseJavaScriptImport (line : List Char) (lineNumber : Nat) : Option ImportInfo :=
  match scan matchNamedAt line with
  | some (inner, src) =>
    some { source := src, imports := (splitOnChar ',' inner).map jsTrim,
           isDefaultImport := false, isNamespaceImport := false, lineNumber := lineNumber }
  | none =>
    match scan matchDefaultAt line with
    | some (name, src) =>
      some { source := src, imports := [name],
             isDefaultImport := true, isNamespaceImport := false, lineNumber := lineNumber }
    | none =>
      match scan matchNamespaceAt line with
      | some (name, src) =>
        some { source := src, imports := [name],
               isDefaultImport := false, isNamespaceImport := true, lineNumber := lineNumber }
      | none =>
        match scan matchSideEffectAt line with
        | some src =>
          some { source := src, imports := [],
                 isDefaultImport := false, isNamespaceImport := false, lineNumber := lineNumber }
        | none => none

/-- Regex `\s+(.+)` at end of pattern: at least one whitespace character,
then a non-empty capture running to the end of the line; `.` also matches
whitespace, so on an all-whitespace tail the engine backtracks to capture
the final whitespace character. -/
def wsThenRest (l : List Char) : Option (List Char) :=
  let w := l.takeWhile isJsWs
  if w.isEmpty then none
  else
    let rest := l.drop w.length
    if !rest.isEmpty then some rest
    else if w.length ≥ 2 then some (l.drop (l.length - 1))
    else none

/-- Anchored matcher for `/from\s+([a-zA-Z_][\w.]*)\s+import\s+(.+)/`. -/
def matchPyFromAt (l : List Char) : Option (List Char × List Char) :=
  match litP fromTok l with
  | none => none
  | some r1 =>
    match ws1 r1 with
    | none => none
    | some r2 =>
      match pyModCap r2 with
      | none => none
      | some (m, r3) =>
        match ws1 r3 with
        | none => none
        | some r4 =>
          match litP impTok r4 with
          | none => none
          | some r5 =>
            match wsThenRest r5 with
            | none => none
            | some rest => some (m, rest)

/-- Anchored matcher for `/import\s+([a-zA-Z_][\w.]*)/`. -/
def matchPyImportAt (l : List Char) : Option (List Char) :=
  match litP impTok l with
  | none => none
  | some r1 =>
    match ws1 r1 with
    | none => none
    | some r2 =>
      match pyModCap r2 with
      | none => none
      | some (m, _) => some m

/-- `_parsePythonImport`. -/
def parsePythonImport (line : List Char) (lineNumber : Nat) : Option ImportInfo :=
  match scan matchPyFromAt line with
  | some (m, rest) =>
    some { source := m, imports := (splitOnChar ',' rest).map jsTrim,
           isDefaultImport := false, isNamespaceImport := false, lineNumber := lineNumber }
  | none =>
    match scan matchPyImportAt line with
    | some m =>
      some { source := m, imports := [m],
             isDefaultImport := false, isNamespaceImport := true, lineNumber := lineNumber }
    | none => none

/-- Backtracking split for the Java pattern `([a-zA-Z_][\w.]*)\.([a-zA-Z_][\w]*)`:
within the greedy `[\w.]` run, the engine gives characters back from the
right until a literal `.` followed by an identifier start is found; the
result is (text before that dot, the `\w` run after it). -/
def lastDotSplit : List Char → Option (List Char × List Char)
  | [] => none
  | c :: rest =>
    match lastDotSplit rest with
    | some (pre, g2) => some (c :: pre, g2)
    | none =>
      if c = '.' then
        match rest with
        | d :: _ =>
          if isPyIdentStart d then some ([], rest.takeWhile isWordChar) else none
        | [] => none
      else none

/-- Anchored matcher for `/import\s+([a-zA-Z_][\w.]*)\.([a-zA-Z_][\w]*);?/`. -/
def matchJavaAt (l : List Char) : Option (List Char × List Char) :=
  match litP impTok l with
  | none => none
  | some r1 =>
    match ws1 r1 with
    | none => none
    | some r2 =>
      match r2 with
      | [] => none
      | c :: _ =>
        if isPyIdentStart c then
          lastDotSplit (r2.takeWhile isWordDot)
        else none

/-- `_parseJavaImport`. -/
def parseJavaImport (line : List Char) (lineNumber : Nat) : Option ImportInfo :=
  match scan matchJavaAt line with
  | some (pkg, cls) =>
    some { source := pkg, imports := [cls],
           isDefaultImport := false, isNamespaceImport := false, lineNumber := lineNumber }
  | none => none

/-- The JS-family extensions tested by `_parseImports` / `_parseExports`. -/
def isJsExtension (ext : List Char) : Bool :=
  ext = str ".ts" || ext = str ".js" || ext = str ".tsx" || ext = str ".jsx"

/-- `_parseImports`: split on newlines, trim each line, dispatch on the
file extension; lines matching no pattern contribute nothing. -/
def parseImports (content : List Char) (extension : List Char) : List ImportInfo :=
  (splitOnChar '\n' content).enum.filterMap fun p =>
    let line := jsTrim p.2
    let lineNumber := p.1 + 1
    if isJsExtension extension then parseJavaScriptImport line lineNumber
    else if extension = str ".py" then parsePythonImport line lineNumber
    else if extension = str ".java" then parseJavaImport line lineNumber
    else none

end DepGraph

namespace DepGraph

/-- The optional `(?:async\s+)?` group followed by the requirement that
`function` matches: if `async` plus whitespace matches, continue from
there, otherwise from the original position (the untaken-option branch can
never succeed when the taken one fails, since a string cannot start with
both `async` and `function`). -/
def skipOptAsync (l : List Char) : List Char :=
  match litP asyncTok l with
  | none => l
  | some r =>
    match ws1 r with
    | none => l
    | some r2 => r2

/-- Anchored matcher for
`/export\s+(?:async\s+)?function\s+([a-zA-Z_$][\w$]*)\s*\(/`. -/
def matchExpFunctionAt (l : List Char) : Option (List Char) :=
  match litP expTok l with
  | none => none
  | some r1 =>
    match ws1 r1 with
    | none => none
    | some r2 =>
      match litP (str "function") (skipOptAsync r2) with
      | none => none
      | some r3 =>
        match ws1 r3 with
        | none => none
        | some r4 =>
          match identCap r4 with
          | none => none
          | some (name, r5) =>
            match dropWsL r5 with
            | [] => none
            | c :: _ => if c = '(' then some name else none

/-- Anchored matcher for `/export\s+class\s+([a-zA-Z_$][\w$]*)/`. -/
def matchExpClassAt (l : List Char) : Option (List Char) :=
  match litP expTok l with
  | none => none
  | some r1 =>
    match ws1 r1 with
    | none => none
    | some r2 =>
      match litP (str "class") r2 with
      | none => none
      | some r3 =>
        match ws1 r3 with
        | none => none
        | some r4 =>
          match identCap r4 with
          | none => none
          | some (name, _) => some name

/-- One alternative of `(?:const|let|var)\s+([a-zA-Z_$][\w$]*)`. -/
def tryVarKeyword (kw : List Char) (l : List Char) : Option (List Char) :=
  match litP kw l with
  | none => none
  | some r1 =>
    match ws1 r1 with
    | none => none
    | some r2 =>
      match identCap r2 with
      | none => none
      | some (name, _) => some name

/-- Anchored matcher for `/export\s+(?:const|let|var)\s+([a-zA-Z_$][\w$]*)/`,
trying the alternatives in the source order. -/
def matchExpVariableAt (l : List Char) : Option (List Char) :=
  match litP expTok l with
  | none => none
  | some r1 =>
    match ws1 r1 with
    | none => none
    | some r2 =>
      match tryVarKeyword (str "const") r2 with
      | some name => some name
      | none =>
        match tryVarKeyword (str "let") r2 with
        | some name => some name
        | none => tryVarKeyword (str "var") r2

/-- Anchored matcher for `/export\s+default\s+/`. -/
def matchExpDefaultAt (l : List Char) : Option Unit :=
  match litP expTok l with
  | none => none
  | some r1 =>
    match ws1 r1 with
    | none => none
    | some r2 =>
      match litP (str "default") r2 with
      | none => none
      | some r3 =>
        match ws1 r3 with
        | none => none
        | some _ => some ()

/-- Anchored matcher for `/export\s*\{([^}]+)\}/`; returns the inner capture. -/
def matchExpNamedAt (l : List Char) : Option (List Char) :=
  match litP expTok l with
  | none => none
  | some r1 =>
    match dropWsL r1 with
    | [] => none
    | c :: r2 =>
      if c = lbrace then
        match cap1 (fun d => !(d = rbrace)) r2 with
        | none => none
        | some (inner, r3) =>
          match r3 with
          | [] => none
          | c2 :: _ => if c2 = rbrace then some inner else none
      else none

/-- `_parseJavaScriptExports`: each of the five patterns is tested
independently and pushes in source order. -/
def parseJavaScriptExports (line : List Char) (lineNumber : Nat) : List ExportInfo :=
  (match scan matchExpFunctionAt line with
   | some name => [{ name := name, type := "function", lineNumber := lineNumber }]
   | none => []) ++
  (match scan matchExpClassAt line with
   | some name => [{ name := name, type := "class", lineNumber := lineNumber }]
   | none => []) ++
  (match scan matchExpVariableAt line with
   | some name => [{ name := name, type := "variable", lineNumber := lineNumber }]
   | none => []) ++
  (match scan matchExpDefaultAt line with
   | some _ => [{ name := str "default", type := "default", lineNumber := lineNumber }]
   | none => []) ++
  (match scan matchExpNamedAt line with
   | some inner =>
     ((splitOnChar ',' inner).map fun nm => takeUntilSub (str " as ") (jsTrim nm)).map
       fun nm => { name := nm, type := "variable", lineNumber := lineNumber }
   | none => [])

/-- `_parsePythonExports`: the three `^`-anchored patterns; the variable
pattern additionally requires the line to contain neither `def ` nor
`class `. -/
def parsePythonExports (line : List Char) (lineNumber : Nat) : List ExportInfo :=
  (match (match litP (str "def") line with
          | none => none
          | some r1 =>
            match ws1 r1 with
            | none => none
            | some r2 =>
              match pyIdentCap r2 with
              | none => none
              | some (name, r3) =>
                match dropWsL r3 with
                | [] => none
                | c :: _ => if c = '(' then some name else none) with
   | some name => [{ name := name, type := "function", lineNumber := lineNumber }]
   | none => []) ++
  (match (match litP (str "class") line with
          | none => none
          | some r1 =>
            match ws1 r1 with
            | none => none
            | some r2 =>
              match pyIdentCap r2 with
              | none => none
              | some (name, _) => some name) with
   | some name => [{ name := name, type := "class", lineNumber := lineNumber }]
   | none => []) ++
  (match (match pyIdentCap line with
          | none => none
          | some (name, r1) =>
            match dropWsL r1 with
            | [] => none
            | c :: _ => if c = '=' then some name else none) with
   | some name =>
     if !containsSub (str "def ") line && !containsSub (str "class ") line then
       [{ name := name, type := "variable", lineNumber := lineNumber }]
     else []
   | none => [])

/-- `_parseExports`: split on newlines, trim, dispatch on extension. -/
def parseExports (content : List Char) (extension : List Char) : List ExportInfo :=
  (splitOnChar '\n' content).enum.flatMap fun p =>
    let line := jsTrim p.2
    let lineNumber := p.1 + 1
    if isJsExtension extension then parseJavaScriptExports line lineNumber
    else if extension = str ".py" then parsePythonExports line lineNumber
    else []

end DepGraph

namespace DepGraph

/-- `ProjectFile` (the fields the manager reads), plus the file's on-disk
content standing in for `fs.readFile(file.path)`: `none` models a read
failure, which `_createDependencyNode` catches and ignores. -/
structure ProjectFile where
  path : List Char
  relativePath : List Char
  name : List Char
  extension : List Char
  content : Option (List Char)
deriving DecidableEq, Repr

/-- `DependencyNode` of the source; `type` is one of the TS literals
`"source" | "test" | "config" | "asset"`. -/
structure DependencyNode where
  filePath : List Char
  relativePath : List Char
  dependencies : List (List Char)
  dependents : List (List Char)
  type : String
  imports : List ImportInfo
  exports : List ExportInfo
deriving DecidableEq, Repr

instance : Inhabited DependencyNode :=
  ⟨{ filePath := [], relativePath := [], dependencies := [], dependents := [],
     type := "source", imports := [], exports := [] }⟩

/-- The dependency graph: a JS `Map<string, DependencyNode>` as an
insertion-ordered association list. -/
abbrev Graph := List (List Char × DependencyNode)

/-- JS `Map.get`: first (unique) entry with the given key. -/
def jsMapGet : Graph → List Char → Option DependencyNode
  | [], _ => none
  | (k0, v) :: rest, k => if k0 = k then some v else jsMapGet rest k

/-- JS `Map.has`. -/
def jsMapHas (g : Graph) (k : List Char) : Bool :=
  (jsMapGet g k).isSome

/-- JS `Map.set`: replace in place if the key exists, else append. -/
def jsMapSet : Graph → List Char → DependencyNode → Graph
  | [], k, v => [(k, v)]
  | (k0, v0) :: rest, k, v =>
    if k0 = k then (k, v) :: rest else (k0, v0) :: jsMapSet rest k v

/-- JS `Map.delete`. -/
def jsMapDelete : Graph → List Char → Graph
  | [], _ => []
  | (k0, v0) :: rest, k =>
    if k0 = k then rest else (k0, v0) :: jsMapDelete rest k

/-- The `excludePatterns` list of `_shouldIncludeFile`. -/
def excludePatterns : List (List Char) :=
  [str ".git", str "node_modules", str ".vscode", str "dist", str "build",
   str "coverage", str ".nyc_output"]

/-- The `sourceExtensions` list (identical in `_shouldIncludeFile` and
`_determineFileType`). -/
def sourceExtensions : List (List Char) :=
  [str ".ts", str ".js", str ".tsx", str ".jsx", str ".py", str ".java",
   str ".cs", str ".go", str ".rs"]

/-- `_shouldIncludeFile`: exclude on a substring hit of any exclude
pattern, then require a source extension. -/
def shouldIncludeFile (file : ProjectFile) : Bool :=
  if excludePatterns.any (fun p => containsSub p file.relativePath) then false
  else decide (file.extension ∈ sourceExtensions)

/-- `_determineFileType`: test indicators first (on the lower-cased
relative path), then config patterns (`name` checks use the original
case), then source extensions, else asset. -/
def determineFileType (file : ProjectFile) : String :=
  if containsSub (str "test") (toLowerL file.relativePath) ||
     containsSub (str "spec") (toLowerL file.relativePath) ||
     containsSub (str "__tests__") (toLowerL file.relativePath) ||
     containsSub (str ".test.") (toLowerL file.relativePath) ||
     containsSub (str ".spec.") (toLowerL file.relativePath) then "test"
  else if containsSub (str "config") (toLowerL file.relativePath) ||
     containsSub (str ".config.") (toLowerL file.relativePath) ||
     startsWithL (str ".") file.name || containsSub (str "webpack") file.name ||
     containsSub (str "babel") file.name || containsSub (str "eslint") file.name ||
     containsSub (str "prettier") file.name || containsSub (str "tsconfig") file.name then "config"
  else if decide (file.extension ∈ sourceExtensions) then "source"
  else "asset"

/-- `_createDependencyNode`: fresh node with parsed imports and exports
(on a read failure both stay empty). -/
def createDependencyNode (file : ProjectFile) : DependencyNode :=
  let base : DependencyNode :=
    { filePath := file.path, relativePath := file.relativePath,
      dependencies := [], dependents := [],
      type := determineFileType file, imports := [], exports := [] }
  match file.content with
  | none => base
  | some c =>
    { base with imports := parseImports c file.extension,
                exports := parseExports c file.extension }

/-- POSIX `path.normalize` on slash-separated segments: drop empty and `.`
segments, let `..` cancel a preceding real segment (kept at the head of a
relative path, dropped at the root of an absolute one). -/
def normSegs (isAbs : Bool) : List (List Char) → List (List Char) → List (List Char)
  | acc, [] => acc.reverse
  | acc, seg :: rest =>
    if seg.isEmpty || seg = str "." then normSegs isAbs acc rest
    else if seg = str ".." then
      match acc with
      | top :: accRest =>
        if top = str ".." then normSegs isAbs (seg :: top :: accRest) rest
        else normSegs isAbs accRest rest
      | [] => if isAbs then normSegs isAbs [] rest else normSegs isAbs [seg] rest
    else normSegs isAbs (seg :: acc) rest

/-- Join segments with `/`. -/
def joinSegs : List (List Char) → List Char
  | [] => []
  | [s] => s
  | s :: rest => s ++ '/' :: joinSegs rest

/-- `path.normalize` (POSIX, for the slash-terminated-free paths the
manager produces). -/
def normalizeP (p : List Char) : List Char :=
  if p.isEmpty then str "."
  else
    let isAbs := startsWithL (str "/") p
    let body := joinSegs (normSegs isAbs [] (splitOnChar '/' p))
    if isAbs then '/' :: body
    else if body.isEmpty then str "." else body

/-- `path.dirname` (POSIX): everything before the last `/`, `.` when there
is none, `/` when the prefix is empty. -/
def dirnameP (p : List Char) : List Char :=
  let r := p.reverse
  let afterLen := (r.takeWhile (fun c => !(c = '/'))).length
  if afterLen = p.length then str "."
  else
    let preR := r.drop (afterLen + 1)
    if preR.isEmpty then str "/" else preR.reverse

/-- `path.basename` (POSIX): the part after the last `/`. -/
def basenameP (p : List Char) : List Char :=
  (p.reverse.takeWhile (fun c => !(c = '/'))).reverse

/-- `path.join a b` (POSIX): concatenate the non-empty parts with `/` and
normalize. -/
def joinP (a b : List Char) : List Char :=
  if a.isEmpty && b.isEmpty then str "."
  else if a.isEmpty then normalizeP b
  else if b.isEmpty then normalizeP a
  else normalizeP (a ++ '/' :: b)

/-- The extension list tried for relative imports in `_resolveImportPath`. -/
def relativeExtensions : List (List Char) :=
  [str ".ts", str ".js", str ".tsx", str ".jsx", str ".py", str ".java"]

/-- The extension list tried for `@/` alias imports. -/
def aliasExtensions : List (List Char) :=
  [str ".ts", str ".js", str ".tsx", str ".jsx"]

/-- First candidate path that is a key of the graph. -/
def findFirstKey (g : Graph) : List (List Char) → Option (List Char)
  | [] => none
  | p :: rest => if jsMapHas g p then some p else findFirstKey g rest

/-- `_resolveImportPath`: relative specifiers resolve against the
importing file's directory (direct extensions first, then `index` files);
`@/` specifiers resolve under `src/`; everything else — and any resolution
miss — yields `null` without error. -/
def resolveImportPath (g : Graph) (importSource fromFilePath : List Char) :
    Option (List Char) :=
  let relResult :=
    if startsWithL (str "./") importSource || startsWithL (str "../") importSource then
      let fromDir := dirnameP fromFilePath
      let resolved := normalizeP (joinP fromDir importSource)
      match findFirstKey g (relativeExtensions.map fun e => resolved ++ e) with
      | some p => some p
      | none =>
        findFirstKey g (relativeExtensions.map fun e => joinP resolved (str "index" ++ e))
    else none
  match relResult with
  | some p => some p
  | none =>
    if startsWithL (str "@/") importSource then
      findFirstKey g (aliasExtensions.map fun e =>
        str "src/" ++ importSource.drop 2 ++ e)
    else none

/-- `_analyzeDependencies`: push every import that resolves to an existing
node, then `[...new Set(...)]` the dependency list. -/
def analyzeDependencies (g : Graph) (node : DependencyNode) : DependencyNode :=
  { node with
    dependencies :=
      dedupFirst (node.dependencies ++ node.imports.filterMap fun importInfo =>
        match resolveImportPath g importInfo.source node.relativePath with
        | some p => if jsMapHas g p then some p else none
        | none => none) }

/-- One `dependencyNode.dependents.push(filePath)` guarded by
`!includes(filePath)` (a missing dependency key is a no-op). -/
def addDependent (g : Graph) (depKey filePath : List Char) : Graph :=
  g.map fun e =>
    if e.1 = depKey then
      (e.1, if filePath ∈ e.2.dependents then e.2
            else { e.2 with dependents := e.2.dependents ++ [filePath] })
    else e

/-- The `node.dependents = []` reset of `_buildReverseDependencies`. -/
def clearDependents (n : DependencyNode) : DependencyNode :=
  { n with dependents := [] }

/-- `_buildReverseDependencies`: clear every `dependents`, then for each
entry push its key onto each of its dependencies' `dependents`.  The JS
loop iterates the map while mutating only `dependents` (and reading only
`dependencies`, which this pass never changes), so folding over the
cleared snapshot is extensionally the same mutation order. -/
def buildReverseDependencies (g : Graph) : Graph :=
  let cleared : Graph := g.map fun e => (e.1, clearDependents e.2)
  cleared.foldl
    (fun acc e => e.2.dependencies.foldl (fun acc2 dep => addDependent acc2 dep e.1) acc)
    cleared

/-- Step 1 of `_buildDependencyGraph`: create a node for every included
file, starting from the cleared map. -/
def buildStep1 (files : List ProjectFile) : Graph :=
  files.foldl
    (fun g f => if shouldIncludeFile f then jsMapSet g f.relativePath (createDependencyNode f) else g)
    []

/-- Step 2 of `_buildDependencyGraph`: analyze every node's dependencies.
The source mutates each node in iteration order, but
`_analyzeDependencies` consults only the key set (via `has`), which step 2
never alters, so a simultaneous map over the entries computes the same
graph. -/
def buildStep2 (files : List ProjectFile) : Graph :=
  (buildStep1 files).map fun e => (e.1, analyzeDependencies (buildStep1 files) e.2)

/-- `_buildDependencyGraph` steps 1-3. -/
def buildDependencyGraph (files : List ProjectFile) : Graph :=
  buildReverseDependencies (buildStep2 files)

end DepGraph

namespace DepGraph

/-- `CircularDependency`; `severity` is one of `"low" | "medium" | "high"`. -/
structure CircularDependency where
  cycle : List (List Char)
  severity : String
deriving DecidableEq, Repr

/-- `_calculateCycleSeverity`: array length of the cycle (closing repeat
included) against the `≤2 / ≤4` tiers. -/
def calculateCycleSeverity (cycle : List (List Char)) : String :=
  if cycle.length ≤ 2 then "high"
  else if cycle.length ≤ 4 then "medium"
  else "low"

/-- The cycle extraction of `_detectCycle`:
`currentPath.slice(currentPath.indexOf(dep)).concat(dep)`; `indexOf`
returning -1 makes `slice(-1)` keep just the last element. -/
def extractCycle (currentPath : List (List Char)) (dep : List Char) :
    List (List Char) :=
  match firstIdx currentPath dep with
  | some i => currentPath.drop i ++ [dep]
  | none => currentPath.drop (currentPath.length - 1) ++ [dep]

/-- The `for (const dependency of node.dependencies)` loop of
`_detectCycle`, threading the shared `visited` / `recursionStack` sets;
the recursive descent into an unvisited dependency is the function
argument `recurse`. -/
def detectOverDeps
    (recurse : List Char → List (List Char) → List (List Char) → List (List Char) →
      List (List Char) × List (List Char) × List (List Char))
    (deps : List (List Char))
    (visited recStack currentPath : List (List Char)) :
    List (List Char) × List (List Char) × List (List Char) :=
  match deps with
  | [] => ([], visited, recStack)
  | dep :: rest =>
    if dep ∈ recStack then (extractCycle currentPath dep, visited, recStack)
    else if dep ∈ visited then detectOverDeps recurse rest visited recStack currentPath
    else
      match recurse dep visited recStack currentPath with
      | (cyc, v2, r2) =>
        if cyc.isEmpty then detectOverDeps recurse rest v2 r2 currentPath
        else (cyc, v2, r2)

/-- `_detectCycle` (fuel-indexed; the visited set grows with the call
depth so `graph.size + 1` fuel is never exhausted).  Returns the cycle
(empty when none) together with the mutated `visited` and
`recursionStack`; on an early cycle return the current node is left on the
recursion stack, exactly as in the source. -/
def detectCycle (g : Graph) : Nat → List Char → List (List Char) → List (List Char) →
    List (List Char) →
    List (List Char) × List (List Char) × List (List Char)
  | 0, _, visited, recStack, _ => ([], visited, recStack)
  | Nat.succ f, filePath, visited, recStack, currentPath =>
    let visited1 := setAdd visited filePath
    let recStack1 := setAdd recStack filePath
    let currentPath1 := currentPath ++ [filePath]
    match jsMapGet g filePath with
    | none => ([], visited1, recStack1)
    | some node =>
      match detectOverDeps (detectCycle g f) node.dependencies visited1 recStack1 currentPath1 with
      | (cyc, v2, r2) =>
        if cyc.isEmpty then ([], v2, setDelete r2 filePath) else (cyc, v2, r2)

/-- The outer loop of `findCircularDependencies`: one DFS per unvisited
key, sharing `visited` and `recursionStack` across iterations. -/
def fcdLoop (g : Graph) : List (List Char) → List (List Char) → List (List Char) →
    List CircularDependency
  | [], _, _ => []
  | k :: rest, visited, recStack =>
    if k ∈ visited then fcdLoop g rest visited recStack
    else
      match detectCycle g (g.length + 1) k visited recStack [] with
      | (cyc, v2, r2) =>
        if cyc.isEmpty then fcdLoop g rest v2 r2
        else { cycle := cyc, severity := calculateCycleSeverity cyc } :: fcdLoop g rest v2 r2

/-- `findCircularDependencies` on an initialized graph. -/
def findCircularDependenciesCore (g : Graph) : List CircularDependency :=
  fcdLoop g (g.map Prod.fst) [] []

/-- The `Math.max` accumulation over the dependencies of
`_calculateNodeDepth`; the recursive child call is the argument `recurse`. -/
def calcMaxChildDepth (recurse : List Char → List (List Char) → Nat)
    (deps : List (List Char)) (visited : List (List Char)) (acc : Nat) : Nat :=
  match deps with
  | [] => acc
  | d :: rest =>
    calcMaxChildDepth recurse rest visited (Nat.max acc (recurse d visited))

/-- `_calculateNodeDepth` (fuel-indexed as for `detectCycle`): depth 0 for
a revisit, 1 for a missing node or a leaf, otherwise one more than the
deepest dependency, each child receiving a fresh copy of the visited set. -/
def calcNodeDepth (g : Graph) : Nat → List Char → List (List Char) → Nat
  | 0, _, _ => 0
  | Nat.succ f, filePath, visited =>
    if filePath ∈ visited then 0
    else
      match jsMapGet g filePath with
      | none => 1
      | some node =>
        if node.dependencies.isEmpty then 1
        else calcMaxChildDepth (calcNodeDepth g f) node.dependencies (setAdd visited filePath) 0 + 1

/-- `GraphMetrics`; `averageDepth` is a JS number, modelled as the exact
rational `totalDepth / totalNodes`. -/
structure GraphMetrics where
  totalNodes : Nat
  totalEdges : Nat
  averageDepth : Rat
  maxDepth : Nat
deriving DecidableEq, Repr

/-- `_calculateGraphMetrics`. -/
def calculateGraphMetrics (g : Graph) : GraphMetrics :=
  let totalEdges := g.foldl (fun acc e => acc + e.2.dependencies.length) 0
  let depths := g.map fun e => calcNodeDepth g (g.length + 1) e.2.relativePath []
  let maxDepth := depths.foldl Nat.max 0
  let totalDepth : Nat := depths.foldl (fun a b => a + b) 0
  { totalNodes := g.length, totalEdges := totalEdges,
    averageDepth := if g.length > 0 then (totalDepth : Rat) / (g.length : Rat) else 0,
    maxDepth := maxDepth }

end DepGraph

namespace DepGraph

/-- `RSWEError` (message and machine code; the optional `context` record
carries only the wrapped exception and is not modelled). -/
structure RSWEError where
  message : String
  code : String
deriving DecidableEq, Repr

/-- The error thrown by every guarded accessor before initialization. -/
def errNotInit : RSWEError :=
  { message := "Dependency graph not initialized",
    code := "DEPENDENCY_GRAPH_NOT_INITIALIZED" }

/-- The mutable fields of `DependencyGraphManager`. -/
structure ManagerState where
  projectAnalysis : Option (List ProjectFile)
  graph : Graph
  isInitialized : Bool
deriving DecidableEq, Repr

/-- The freshly constructed manager. -/
def freshManager : ManagerState :=
  { projectAnalysis := none, graph := [], isInitialized := false }

/-- `initialize(projectAnalysis)`: store the analysis, rebuild the graph
from scratch, set the flag (nothing in the pure model can throw, so the
`try`/`catch` wrapper collapses). -/
def mgrInit (files : List ProjectFile) : ManagerState :=
  { projectAnalysis := some files, graph := buildDependencyGraph files,
    isInitialized := true }

/-- `updateGraph(updatedFiles)`: a silent no-op before initialization;
otherwise re-create or delete the updated files' nodes, re-analyze the
updated files only, and rebuild every `dependents` list. -/
def updateGraph (st : ManagerState) (updatedFiles : List ProjectFile) : ManagerState :=
  if st.isInitialized = false then st
  else
    match st.projectAnalysis with
    | none => st
    | some _ =>
      let g1 := updatedFiles.foldl
        (fun g f =>
          if shouldIncludeFile f then jsMapSet g f.relativePath (createDependencyNode f)
          else jsMapDelete g f.relativePath)
        st.graph
      let g2 := updatedFiles.foldl
        (fun g f =>
          match jsMapGet g f.relativePath with
          | some node =>
            jsMapSet g f.relativePath (analyzeDependencies g { node with dependencies := [] })
          | none => g)
        g1
      { st with graph := buildReverseDependencies g2 }

/-- `DependencyInfo` returned by `getDependencies`. -/
structure DependencyInfo where
  file : List Char
  dependencies : List (List Char)
  dependents : List (List Char)
  imports : List ImportInfo
  exports : List ExportInfo
  type : String
deriving DecidableEq, Repr

/-- `getDependencies(filePath)`: not-initialized guard, then the node's
data (or `null` for an unknown path). -/
def getDependencies (st : ManagerState) (filePath : List Char) :
    Except RSWEError (Option DependencyInfo) :=
  if st.isInitialized = false then .error errNotInit
  else
    match jsMapGet st.graph filePath with
    | none => .ok none
    | some node =>
      .ok (some { file := filePath, dependencies := node.dependencies,
                  dependents := node.dependents, imports := node.imports,
                  exports := node.exports, type := node.type })

/-- `findCircularDependencies()`: not-initialized guard, then the DFS. -/
def findCircularDependencies (st : ManagerState) :
    Except RSWEError (List CircularDependency) :=
  if st.isInitialized = false then .error errNotInit
  else .ok (findCircularDependenciesCore st.graph)

/-- `GraphNode` of the visualization (`from`-free field names). -/
structure GraphNode where
  id : List Char
  label : List Char
  type : String
  dependencyCount : Nat
  dependentCount : Nat
deriving DecidableEq, Repr

/-- `GraphEdge` of the visualization; the source's `from`/`to` fields are
Lean keywords and become `fromFile`/`toFile`; `type` is always
`"dependency"`. -/
structure GraphEdge where
  fromFile : List Char
  toFile : List Char
  type : String
deriving DecidableEq, Repr

/-- `DependencyGraphVisualization`. -/
structure DependencyGraphVisualization where
  nodes : List GraphNode
  edges : List GraphEdge
  metrics : GraphMetrics
deriving DecidableEq, Repr

/-- `getGraphVisualization()`: not-initialized guard, then one `GraphNode`
per entry and one `GraphEdge` per dependency, plus the metrics. -/
def getGraphVisualization (st : ManagerState) :
    Except RSWEError DependencyGraphVisualization :=
  if st.isInitialized = false then .error errNotInit
  else
    .ok { nodes := st.graph.map fun e =>
            { id := e.1, label := basenameP e.1, type := e.2.type,
              dependencyCount := e.2.dependencies.length,
              dependentCount := e.2.dependents.length },
          edges := st.graph.flatMap fun e =>
            e.2.dependencies.map fun dep =>
              { fromFile := e.1, toFile := dep, type := "dependency" },
          metrics := calculateGraphMetrics st.graph }

/-- `TopFileInfo`. -/
structure TopFileInfo where
  file : List Char
  count : Nat
deriving DecidableEq, Repr

/-- `_getTopDependencyFiles`: JS `Array.sort` is stable, so each sort is a
stable merge sort by descending count; the second sort runs on the array
the first one produced (the source sorts the same array in place twice). -/
def getTopDependencyFiles (g : Graph) : List TopFileInfo × List TopFileInfo :=
  let s1 := g.mergeSort fun a b => b.2.dependents.length ≤ a.2.dependents.length
  let mostDependent := (s1.take 5).map fun e =>
    { file := e.1, count := e.2.dependents.length }
  let s2 := s1.mergeSort fun a b => b.2.dependencies.length ≤ a.2.dependencies.length
  let mostDependencies := (s2.take 5).map fun e =>
    { file := e.1, count := e.2.dependencies.length }
  (mostDependent, mostDependencies)

/-- `_getFileTypeDistribution` as the ordered list of (type, count) pairs
of the JS record (keys in first-appearance order). -/
def getFileTypeDistribution (g : Graph) : List (String × Nat) :=
  g.foldl
    (fun dist e =>
      match dist.lookup e.2.type with
      | some n => dist.map fun p => if p.1 = e.2.type then (p.1, n + 1) else p
      | none => dist ++ [(e.2.type, 1)])
    []

/-- `DependencyReport`. -/
structure DependencyReport where
  totalFiles : Nat
  totalDependencies : Nat
  circularDependencies : List CircularDependency
  mostDependentFiles : List TopFileInfo
  mostDependencyFiles : List TopFileInfo
  averageDepth : Rat
  maxDepth : Nat
  fileTypes : List (String × Nat)
deriving DecidableEq, Repr

/-- `getDependencyReport()`: not-initialized guard, then the aggregate
report. -/
def getDependencyReport (st : ManagerState) : Except RSWEError DependencyReport :=
  if st.isInitialized = false then .error errNotInit
  else
    let metrics := calculateGraphMetrics st.graph
    let circularDeps := findCircularDependenciesCore st.graph
    let topFiles := getTopDependencyFiles st.graph
    .ok { totalFiles := st.graph.length,
          totalDependencies := metrics.totalEdges,
          circularDependencies := circularDeps,
          mostDependentFiles := topFiles.1,
          mostDependencyFiles := topFiles.2,
          averageDepth := metrics.averageDepth,
          maxDepth := metrics.maxDepth,
          fileTypes := getFileTypeDistribution st.graph }

/-- The record returned by `getGraphStatus`. -/
structure GraphStatus where
  isInitialized : Bool
  totalNodes : Nat
  totalEdges : Nat
  circularDependencies : Nat
deriving DecidableEq, Repr

/-- `getGraphStatus()`: unlike the other four accessors this never throws;
before initialization it returns the all-zero record with the flag false. -/
def getGraphStatus (st : ManagerState) : GraphStatus :=
  if st.isInitialized = false then
    { isInitialized := false, totalNodes := 0, totalEdges := 0, circularDependencies := 0 }
  else
    { isInitialized := st.isInitialized,
      totalNodes := st.graph.length,
      totalEdges := st.graph.foldl (fun acc e => acc + e.2.dependencies.length) 0,
      circularDependencies := (findCircularDependenciesCore st.graph).length }

end DepGraph

namespace DepGraph

instance {ε α : Type} [DecidableEq ε] [DecidableEq α] : DecidableEq (Except ε α) := fun a b =>
  match a, b with
  | .ok x, .ok y => if h : x = y then .isTrue (by rw [h]) else .isFalse (by simp [h])
  | .error x, .error y => if h : x = y then .isTrue (by rw [h]) else .isFalse (by simp [h])
  | .ok _, .error _ => .isFalse (by simp)
  | .error _, .ok _ => .isFalse (by simp)

/-- A quoted module specifier, e.g. `sq "./b"` is `'./b'`. -/
def sq (s : String) : List Char := [squote] ++ str s ++ [squote]

/-- A readable project file at the repository root whose path, relative
path and name coincide, with extension `.ts`. -/
def mkFile (rel : String) (content : List Char) : ProjectFile :=
  { path := str rel, relativePath := str rel, name := str rel,
    extension := str ".ts", content := some content }

/-- An all-empty node, used only as an `Option.getD` default in closed
statements. -/
def emptyNode : DependencyNode :=
  { filePath := [], relativePath := [], dependencies := [], dependents := [],
    type := "source", imports := [], exports := [] }

end DepGraph

namespace DepGraph

/-- C2 counterexample: the claim says *every* read accessor (including
`getGraphStatus`) fails fast with the "not initialized" error before any
successful build; but `getGraphStatus` on the freshly constructed manager
does not fail — it returns a plain status record (with zero counts and
only the `isInitialized` flag distinguishing it). -/
theorem C2_counterexample :
    getGraphStatus freshManager =
      { isInitialized := false, totalNodes := 0, totalEdges := 0,
        circularDependencies := 0 } := by
  decide

/-- C2 (amended): before any successful build (`isInitialized = false`),
the four accessors `getDependencies`, `findCircularDependencies`,
`getGraphVisualization` and `getDependencyReport` fail fast with the
`DEPENDENCY_GRAPH_NOT_INITIALIZED` error, while `getGraphStatus` instead
returns the all-zero status record flagged `isInitialized := false`
rather than throwing. -/
theorem C2_theorem (st : ManagerState) (filePath : List Char)
    (h : st.isInitialized = false) :
    getDependencies st filePath = .error errNotInit ∧
    findCircularDependencies st = .error errNotInit ∧
    getGraphVisualization st = .error errNotInit ∧
    getDependencyReport st = .error errNotInit ∧
    getGraphStatus st =
      { isInitialized := false, totalNodes := 0, totalEdges := 0,
        circularDependencies := 0 } := by
  refine ⟨?_, ?_, ?_, ?_, ?_⟩ <;>
    simp [getDependencies, findCircularDependencies, getGraphVisualization,
      getDependencyReport, getGraphStatus, h]

/-- Witness for `C2_theorem` at the freshly constructed manager. -/
theorem C2_theorem_witness :
    getDependencies freshManager (str "a.ts") = .error errNotInit ∧
    findCircularDependencies freshManager = .error errNotInit ∧
    getGraphVisualization freshManager = .error errNotInit ∧
    getDependencyReport freshManager = .error errNotInit ∧
    getGraphStatus freshManager =
      { isInitialized := false, totalNodes := 0, totalEdges := 0,
        circularDependencies := 0 } :=
  C2_theorem freshManager (str "a.ts") (by decide)

/-- `x.ts` of the C3 scenario: `import './y'`. -/
def c3FileX : ProjectFile := mkFile "x.ts" (str "import " ++ sq "./y")

/-- `y.ts` of the C3 scenario: `import './x'`. -/
def c3FileY : ProjectFile := mkFile "y.ts" (str "import " ++ sq "./x")

/-- The manager after a full build over the two-file cycle. -/
def c3St : ManagerState := mgrInit [c3FileX, c3FileY]

/-- C3 counterexample: on the two-file cycle the claim expects severity
"high", but the returned cycle array is `[x, y, x]` of length 3 (the
closing repeat counts), so `_calculateCycleSeverity`'s `≤ 2` tier is
missed and the severity is "medium"; the claimed result does not hold. -/
theorem C3_counterexample :
    ¬ findCircularDependencies c3St =
        .ok [{ cycle := [str "x.ts", str "y.ts", str "x.ts"], severity := "high" }] := by
  decide

/-- C3 (amended): the two-file cycle yields exactly one
`CircularDependency` with cycle sequence `[x.ts, y.ts, x.ts]` and severity
"medium" (its length, closing repeat included, is 3, which falls in the
`≤ 4` tier, not the `≤ 2` one). -/
theorem C3_theorem :
    findCircularDependencies c3St =
      .ok [{ cycle := [str "x.ts", str "y.ts", str "x.ts"], severity := "medium" }] := by
  decide

/-- `a.ts` of the C4 scenario: `import './b'`. -/
def c4FileA : ProjectFile := mkFile "a.ts" (str "import " ++ sq "./b")

/-- `b.ts` of the C4 scenario: `import './c'`. -/
def c4FileB : ProjectFile := mkFile "b.ts" (str "import " ++ sq "./c")

/-- `c.ts` of the C4 scenario: `import './a'`. -/
def c4FileC : ProjectFile := mkFile "c.ts" (str "import " ++ sq "./a")

/-- The manager after a full build over the three-file cycle A→B→C→A. -/
def c4St : ManagerState := mgrInit [c4FileA, c4FileB, c4FileC]

/-- C4: the 3-file cycle A→B→C→A yields exactly one `CircularDependency`;
its cycle sequence `[a.ts, b.ts, c.ts, a.ts]` is (the identity) rotation
of [A, B, C, A] with the first key repeated as the last, and its severity
is "medium" (array length 4, the `≤ 4` tier). -/
theorem C4_theorem :
    findCircularDependencies c4St =
      .ok [{ cycle := [str "a.ts", str "b.ts", str "c.ts", str "a.ts"],
             severity := "medium" }] := by
  decide

/-- `a.ts` of the C5 scenario: `import {x} from './b'`. -/
def c5FileA : ProjectFile :=
  mkFile "a.ts" (str "import " ++ [lbrace] ++ str "x" ++ [rbrace] ++ str " from " ++ sq "./b")

/-- `b.ts` of the C5 scenario: `export const x = 1`. -/
def c5FileB : ProjectFile := mkFile "b.ts" (str "export const x = 1")

/-- `c.ts` of the C5 scenario: `import './a'` then `import './b'`. -/
def c5FileC : ProjectFile :=
  mkFile "c.ts" (str "import " ++ sq "./a" ++ ['\n'] ++ str "import " ++ sq "./b")

/-- The manager after a full build over the C5 root. -/
def c5St : ManagerState := mgrInit [c5FileA, c5FileB, c5FileC]

/-- C5 counterexample: the claim expects the dependency depth computed
from `c.ts` (the graph's maximum) to be 2, but `_calculateNodeDepth`
counts nodes, not edges (a leaf has depth 1), so the chain c→a→b has
depth 3. -/
theorem C5_counterexample :
    calcNodeDepth c5St.graph (c5St.graph.length + 1) (str "c.ts") [] = 3 ∧
    ¬ (calculateGraphMetrics c5St.graph).maxDepth = 2 := by
  decide

/-- C5 (amended): the three-file root yields exactly the nodes
[a.ts, b.ts, c.ts] with edges a→b, c→a, c→b;
`getDependencies('b.ts').dependents = [a.ts, c.ts]`; zero cycles; and the
dependency depth from `c.ts` — the graph's maximum — is 3 (the source
counts nodes on the longest chain, giving leaves depth 1). -/
theorem C5_theorem :
    (getGraphVisualization c5St).map
        (fun v => (v.nodes.map GraphNode.id,
                   v.edges.map fun e => (e.fromFile, e.toFile))) =
      .ok ([str "a.ts", str "b.ts", str "c.ts"],
           [(str "a.ts", str "b.ts"), (str "c.ts", str "a.ts"),
            (str "c.ts", str "b.ts")]) ∧
    (getDependencies c5St (str "b.ts")).map (Option.map DependencyInfo.dependents) =
      .ok (some [str "a.ts", str "c.ts"]) ∧
    findCircularDependencies c5St = .ok [] ∧
    calcNodeDepth c5St.graph (c5St.graph.length + 1) (str "c.ts") [] = 3 ∧
    (calculateGraphMetrics c5St.graph).maxDepth = 3 := by
  refine ⟨?_, ?_, ?_, ?_, ?_⟩ <;> decide

end DepGraph

namespace DepGraph


/-- The guarded `dependents.push` of `_buildReverseDependencies` as a
node transformer. -/
def pushDep (filePath : List Char) (n : DependencyNode) : DependencyNode :=
  if filePath ∈ n.dependents then n
  else { n with dependents := n.dependents ++ [filePath] }

lemma pushDep_dependencies (f : List Char) (n : DependencyNode) :
    (pushDep f n).dependencies = n.dependencies := by
  unfold pushDep; split <;> rfl

lemma pushDep_idem (f : List Char) (n : DependencyNode) :
    pushDep f (pushDep f n) = pushDep f n := by
  unfold pushDep
  by_cases h : f ∈ n.dependents <;> simp [h]

lemma mem_pushDep_dependents (x f : List Char) (n : DependencyNode) :
    x ∈ (pushDep f n).dependents ↔ x ∈ n.dependents ∨ x = f := by
  unfold pushDep
  by_cases h : f ∈ n.dependents
  · simp only [h, if_true]
    constructor
    · exact fun hx => Or.inl hx
    · rintro (hx | rfl)
      · exact hx
      · exact h
  · simp [h]

lemma jsMapGet_addDependent (g : Graph) (d f k : List Char) :
    jsMapGet (addDependent g d f) k =
      if k = d then (jsMapGet g k).map (pushDep f) else jsMapGet g k := by
  induction g with
  | nil => unfold addDependent; by_cases h : k = d <;> simp [jsMapGet, h]
  | cons e rest ih =>
    have hcons : addDependent (e :: rest) d f =
        (if e.1 = d then (e.1, pushDep f e.2) else e) :: addDependent rest d f := by
      unfold addDependent pushDep
      simp only [List.map_cons]
    rw [hcons]
    by_cases hd : e.1 = d
    · rw [if_pos hd]
      by_cases hk : e.1 = k
      · have hkd : k = d := hk ▸ hd
        simp [jsMapGet, hk, hkd, hd]
      · have : ¬ k = d := fun hkd => hk (hkd ▸ hd ▸ rfl)
        simp only [jsMapGet, hk, if_false, this]
        rw [ih, if_neg this]
    · rw [if_neg hd]
      by_cases hk : e.1 = k
      · have : ¬ k = d := fun hkd => hd (hk.trans hkd)
        simp [jsMapGet, hk, this]
      · simp only [jsMapGet, hk, if_false]
        exact ih

lemma jsMapGet_foldl_addDependent (f : List Char) (deps : List (List Char))
    (acc : Graph) (k : List Char) :
    jsMapGet (deps.foldl (fun a d => addDependent a d f) acc) k =
      if k ∈ deps then (jsMapGet acc k).map (pushDep f) else jsMapGet acc k := by
  induction deps generalizing acc with
  | nil => simp
  | cons d rest ih =>
    rw [List.foldl_cons, ih, jsMapGet_addDependent]
    by_cases hkd : k = d
    · subst hkd
      by_cases hkr : k ∈ rest
      · rw [if_pos hkr, if_pos (List.mem_cons_self _ _), if_pos rfl]
        cases jsMapGet acc k <;> simp [pushDep_idem]
      · simp [hkr]
    · by_cases hkr : k ∈ rest <;> simp [hkr, hkd]

/-- The cumulative effect of the reverse-dependency pass on the node at
key `k`: for each graph entry (in order) that depends on `k`, push that
entry's key. -/
def entApply (k : List Char) (entries : Graph) (n : DependencyNode) : DependencyNode :=
  entries.foldl (fun m e => if k ∈ e.2.dependencies then pushDep e.1 m else m) n

lemma entApply_nil (k : List Char) (n : DependencyNode) : entApply k [] n = n := rfl

lemma entApply_cons (k : List Char) (e : List Char × DependencyNode) (rest : Graph)
    (n : DependencyNode) :
    entApply k (e :: rest) n =
      entApply k rest (if k ∈ e.2.dependencies then pushDep e.1 n else n) := rfl

lemma jsMapGet_revFold (entries : Graph) (acc : Graph) (k : List Char) :
    jsMapGet
      (entries.foldl
        (fun a e => e.2.dependencies.foldl (fun a2 dep => addDependent a2 dep e.1) a) acc) k
      = (jsMapGet acc k).map (entApply k entries) := by
  induction entries generalizing acc with
  | nil =>
    rw [List.foldl_nil]
    cases jsMapGet acc k <;> simp [entApply_nil]
  | cons e rest ih =>
    rw [List.foldl_cons, ih, jsMapGet_foldl_addDependent]
    by_cases hk : k ∈ e.2.dependencies <;>
      cases jsMapGet acc k <;> simp [hk, entApply_cons]

lemma entApply_dependencies (k : List Char) (es : Graph) (n : DependencyNode) :
    (entApply k es n).dependencies = n.dependencies := by
  induction es generalizing n with
  | nil => rfl
  | cons e rest ih =>
    rw [entApply_cons]
    by_cases h : k ∈ e.2.dependencies
    · rw [if_pos h, ih, pushDep_dependencies]
    · rw [if_neg h, ih]

lemma mem_entApply_dependents (x k : List Char) (es : Graph) (n : DependencyNode) :
    x ∈ (entApply k es n).dependents ↔
      x ∈ n.dependents ∨ ∃ e ∈ es, e.1 = x ∧ k ∈ e.2.dependencies := by
  induction es generalizing n with
  | nil =>
    rw [entApply_nil]
    constructor
    · exact fun hx => Or.inl hx
    · rintro (hx | ⟨e, he, _⟩)
      · exact hx
      · exact absurd he (List.not_mem_nil e)
  | cons e rest ih =>
    rw [entApply_cons]
    by_cases h : k ∈ e.2.dependencies
    · rw [if_pos h, ih]
      rw [mem_pushDep_dependents]
      constructor
      · rintro ((hx | rfl) | hx)
        · exact Or.inl hx
        · exact Or.inr ⟨e, List.mem_cons_self _ _, rfl, h⟩
        · obtain ⟨e2, he2, hx1, hk⟩ := hx
          exact Or.inr ⟨e2, List.mem_cons_of_mem _ he2, hx1, hk⟩
      · rintro (hx | ⟨e2, he2, hx1, hk⟩)
        · exact Or.inl (Or.inl hx)
        · rcases List.mem_cons.mp he2 with rfl | he2
          · exact Or.inl (Or.inr hx1.symm)
          · exact Or.inr ⟨e2, he2, hx1, hk⟩
    · rw [if_neg h, ih]
      constructor
      · rintro (hx | ⟨e2, he2, hx1, hk⟩)
        · exact Or.inl hx
        · exact Or.inr ⟨e2, List.mem_cons_of_mem _ he2, hx1, hk⟩
      · rintro (hx | ⟨e2, he2, hx1, hk⟩)
        · exact Or.inl hx
        · rcases List.mem_cons.mp he2 with rfl | he2
          · exact absurd hk h
          · exact Or.inr ⟨e2, he2, hx1, hk⟩

lemma jsMapGet_mapVals (h : DependencyNode → DependencyNode) (g : Graph) (k : List Char) :
    jsMapGet (g.map fun e => (e.1, h e.2)) k = (jsMapGet g k).map h := by
  induction g with
  | nil => rfl
  | cons e rest ih =>
    by_cases hk : e.1 = k <;> simp [jsMapGet, hk, ih]

lemma jsMapGet_buildReverse (g : Graph) (k : List Char) :
    jsMapGet (buildReverseDependencies g) k =
      (jsMapGet g k).map fun n =>
        entApply k (g.map fun e => (e.1, clearDependents e.2)) (clearDependents n) := by
  unfold buildReverseDependencies
  rw [jsMapGet_revFold, jsMapGet_mapVals]
  cases jsMapGet g k <;> simp

lemma mem_of_jsMapGet (g : Graph) (k : List Char) (v : DependencyNode)
    (h : jsMapGet g k = some v) : (k, v) ∈ g := by
  induction g with
  | nil => simp [jsMapGet] at h
  | cons e rest ih =>
    by_cases hk : e.1 = k
    · simp only [jsMapGet, hk, if_true, Option.some.injEq] at h
      subst h
      cases e
      simp_all
    · simp only [jsMapGet, hk, if_false] at h
      exact List.mem_cons_of_mem _ (ih h)

lemma jsMapGet_eq_of_mem (g : Graph) (k : List Char) (v : DependencyNode)
    (hN : (g.map Prod.fst).Nodup) (h : (k, v) ∈ g) : jsMapGet g k = some v := by
  induction g with
  | nil => simp at h
  | cons e rest ih =>
    rcases List.mem_cons.mp h with rfl | hmem
    · simp [jsMapGet]
    · have hne : e.1 ≠ k := by
        intro he
        have hkm : k ∈ rest.map Prod.fst := List.mem_map.mpr ⟨(k, v), hmem, rfl⟩
        rw [List.map_cons, List.nodup_cons] at hN
        exact hN.1 (he ▸ hkm)
      rw [List.map_cons, List.nodup_cons] at hN
      simp only [jsMapGet, hne, if_false]
      exact ih hN.2 hmem

end DepGraph

namespace DepGraph

lemma clearDependents_dependencies (n : DependencyNode) :
    (clearDependents n).dependencies = n.dependencies := rfl

/-- After `_buildReverseDependencies` on any graph with no duplicate keys,
`B ∈ A.dependencies ↔ A ∈ B.dependents` for every pair of stored nodes. -/
lemma bidirectional_of_buildReverse (g : Graph) (hN : (g.map Prod.fst).Nodup)
    (kA kB : List Char) (A B : DependencyNode)
    (hA : jsMapGet (buildReverseDependencies g) kA = some A)
    (hB : jsMapGet (buildReverseDependencies g) kB = some B) :
    kB ∈ A.dependencies ↔ kA ∈ B.dependents := by
  rw [jsMapGet_buildReverse] at hA hB
  obtain ⟨A0, hA0, hAdef⟩ : ∃ A0, jsMapGet g kA = some A0 ∧
      A = entApply kA (g.map fun e => (e.1, clearDependents e.2)) (clearDependents A0) := by
    cases h : jsMapGet g kA with
    | none => rw [h] at hA; exact absurd hA (by simp)
    | some A0 => rw [h] at hA; exact ⟨A0, rfl, (Option.some.injEq _ _).mp hA |>.symm⟩
  obtain ⟨B0, hB0, hBdef⟩ : ∃ B0, jsMapGet g kB = some B0 ∧
      B = entApply kB (g.map fun e => (e.1, clearDependents e.2)) (clearDependents B0) := by
    cases h : jsMapGet g kB with
    | none => rw [h] at hB; exact absurd hB (by simp)
    | some B0 => rw [h] at hB; exact ⟨B0, rfl, (Option.some.injEq _ _).mp hB |>.symm⟩
  have hAdeps : A.dependencies = A0.dependencies := by
    rw [hAdef, entApply_dependencies, clearDependents_dependencies]
  have hBdeps : kA ∈ B.dependents ↔
      ∃ c ∈ g, c.1 = kA ∧ kB ∈ c.2.dependencies := by
    rw [hBdef, mem_entApply_dependents]
    constructor
    · rintro (hx | ⟨e, he, hx1, hk⟩)
      · exact absurd hx (List.not_mem_nil _)
      · obtain ⟨c, hc, rfl⟩ := List.mem_map.mp he
        exact ⟨c, hc, hx1, hk⟩
    · rintro ⟨c, hc, hx1, hk⟩
      exact Or.inr ⟨(c.1, clearDependents c.2),
        List.mem_map.mpr ⟨c, hc, rfl⟩, hx1, hk⟩
  rw [hAdeps, hBdeps]
  constructor
  · intro hmem
    exact ⟨(kA, A0), mem_of_jsMapGet g kA A0 hA0, rfl, hmem⟩
  · rintro ⟨c, hc, hx1, hk⟩
    obtain ⟨k1, v1⟩ := c
    subst hx1
    have := jsMapGet_eq_of_mem g k1 v1 hN hc
    rw [hA0] at this
    exact (Option.some.injEq _ _).mp this ▸ hk

lemma jsMapGet_jsMapSet (g : Graph) (k0 : List Char) (v0 : DependencyNode)
    (k : List Char) :
    jsMapGet (jsMapSet g k0 v0) k = if k = k0 then some v0 else jsMapGet g k := by
  induction g with
  | nil =>
    by_cases h : k = k0
    · subst h; simp [jsMapSet, jsMapGet]
    · have h2 : ¬ k0 = k := fun he => h he.symm
      simp [jsMapSet, jsMapGet, h, h2]
  | cons e rest ih =>
    obtain ⟨k1, v1⟩ := e
    by_cases h0 : k1 = k0
    · subst h0
      by_cases hk : k = k1
      · subst hk; simp [jsMapSet, jsMapGet]
      · have h2 : ¬ k1 = k := fun he => hk he.symm
        simp [jsMapSet, jsMapGet, hk, h2]
    · by_cases hk : k1 = k
      · have h2 : ¬ k = k0 := fun he => h0 (hk ▸ he ▸ rfl)
        simp [jsMapSet, jsMapGet, h0, hk, h2]
      · simp [jsMapSet, jsMapGet, h0, hk, ih]

lemma keys_jsMapSet (g : Graph) (k0 : List Char) (v0 : DependencyNode) :
    (jsMapSet g k0 v0).map Prod.fst =
      if k0 ∈ g.map Prod.fst then g.map Prod.fst else g.map Prod.fst ++ [k0] := by
  induction g with
  | nil => simp [jsMapSet]
  | cons e rest ih =>
    obtain ⟨k1, v1⟩ := e
    by_cases h0 : k1 = k0
    · subst h0; simp [jsMapSet]
    · have h2 : ¬ k0 = k1 := fun he => h0 he.symm
      simp only [jsMapSet, h0, if_false, List.map_cons, List.mem_cons, h2, false_or, ih]
      by_cases hmem : k0 ∈ rest.map Prod.fst <;> simp [hmem]

lemma nodup_keys_jsMapSet (g : Graph) (k0 : List Char) (v0 : DependencyNode)
    (hN : (g.map Prod.fst).Nodup) : ((jsMapSet g k0 v0).map Prod.fst).Nodup := by
  rw [keys_jsMapSet]
  by_cases hmem : k0 ∈ g.map Prod.fst
  · simpa [hmem]
  · simpa [hmem] using List.Nodup.append hN (List.nodup_singleton k0)
      (by simpa using fun h => hmem h)

lemma keys_jsMapDelete_sublist (g : Graph) (k : List Char) :
    ((jsMapDelete g k).map Prod.fst).Sublist (g.map Prod.fst) := by
  induction g with
  | nil => simp [jsMapDelete]
  | cons e rest ih =>
    obtain ⟨k1, v1⟩ := e
    by_cases h : k1 = k
    · simp only [jsMapDelete, h, if_true, List.map_cons]
      exact List.sublist_cons_self _ _
    · simp only [jsMapDelete, h, if_false, List.map_cons]
      exact List.Sublist.cons₂ _ ih

lemma nodup_keys_jsMapDelete (g : Graph) (k : List Char)
    (hN : (g.map Prod.fst).Nodup) : ((jsMapDelete g k).map Prod.fst).Nodup :=
  (keys_jsMapDelete_sublist g k).nodup hN

lemma keys_addDependent (g : Graph) (d f : List Char) :
    (addDependent g d f).map Prod.fst = g.map Prod.fst := by
  unfold addDependent
  rw [List.map_map]
  refine List.map_congr_left fun e _ => ?_
  by_cases h : e.1 = d <;> simp [h]

lemma keys_foldl_addDependent (f : List Char) (deps : List (List Char)) (acc : Graph) :
    ((deps.foldl (fun a d => addDependent a d f) acc).map Prod.fst) = acc.map Prod.fst := by
  induction deps generalizing acc with
  | nil => rfl
  | cons d rest ih => rw [List.foldl_cons, ih, keys_addDependent]

lemma keys_buildReverse (g : Graph) :
    (buildReverseDependencies g).map Prod.fst = g.map Prod.fst := by
  unfold buildReverseDependencies
  have hrev : ∀ (entries acc : Graph),
      ((entries.foldl
        (fun a e => e.2.dependencies.foldl (fun a2 dep => addDependent a2 dep e.1) a) acc).map
          Prod.fst) = acc.map Prod.fst := by
    intro entries
    induction entries with
    | nil => intro acc; rfl
    | cons e rest ih =>
      intro acc
      rw [List.foldl_cons, ih, keys_foldl_addDependent]
  rw [hrev, List.map_map]
  rfl

lemma keys_mapVals (h : DependencyNode → DependencyNode) (g : Graph) :
    ((g.map fun e => (e.1, h e.2)).map Prod.fst) = g.map Prod.fst := by
  rw [List.map_map]; rfl

end DepGraph

namespace DepGraph

lemma jsMapHas_iff_mem_keys (g : Graph) (k : List Char) :
    jsMapHas g k = true ↔ k ∈ g.map Prod.fst := by
  induction g with
  | nil => simp [jsMapHas, jsMapGet]
  | cons e rest ih =>
    by_cases h : e.1 = k
    · simp [jsMapHas, jsMapGet, h]
    · have h2 : ¬ k = e.1 := fun he => h he.symm
      simp only [jsMapHas, jsMapGet, h, if_false, List.map_cons, List.mem_cons, h2, false_or]
      exact ih

lemma nodup_keys_buildFold (files : List ProjectFile) (acc : Graph)
    (hN : (acc.map Prod.fst).Nodup) :
    (((files.foldl
        (fun g f => if shouldIncludeFile f then jsMapSet g f.relativePath (createDependencyNode f) else g)
        acc)).map Prod.fst).Nodup := by
  induction files generalizing acc with
  | nil => exact hN
  | cons f rest ih =>
    rw [List.foldl_cons]
    by_cases h : shouldIncludeFile f
    · rw [if_pos h]
      exact ih _ (nodup_keys_jsMapSet _ _ _ hN)
    · rw [if_neg h]
      exact ih _ hN

lemma nodup_keys_buildStep2 (files : List ProjectFile) :
    ((buildStep2 files).map Prod.fst).Nodup := by
  rw [buildStep2, keys_mapVals]
  exact nodup_keys_buildFold files [] (by simp)

lemma nodup_keys_build (files : List ProjectFile) :
    ((buildDependencyGraph files).map Prod.fst).Nodup := by
  rw [buildDependencyGraph, keys_buildReverse]
  exact nodup_keys_buildStep2 files

lemma nodup_keys_updateFold1 (files : List ProjectFile) (acc : Graph)
    (hN : (acc.map Prod.fst).Nodup) :
    (((files.foldl
        (fun g f =>
          if shouldIncludeFile f then jsMapSet g f.relativePath (createDependencyNode f)
          else jsMapDelete g f.relativePath)
        acc)).map Prod.fst).Nodup := by
  induction files generalizing acc with
  | nil => exact hN
  | cons f rest ih =>
    rw [List.foldl_cons]
    by_cases h : shouldIncludeFile f
    · rw [if_pos h]
      exact ih _ (nodup_keys_jsMapSet _ _ _ hN)
    · rw [if_neg h]
      exact ih _ (nodup_keys_jsMapDelete _ _ hN)

lemma nodup_keys_updateFold2 (files : List ProjectFile) (acc : Graph)
    (hN : (acc.map Prod.fst).Nodup) :
    (((files.foldl
        (fun g f =>
          match jsMapGet g f.relativePath with
          | some node =>
            jsMapSet g f.relativePath (analyzeDependencies g { node with dependencies := [] })
          | none => g)
        acc)).map Prod.fst).Nodup := by
  induction files generalizing acc with
  | nil => exact hN
  | cons f rest ih =>
    rw [List.foldl_cons]
    cases h : jsMapGet acc f.relativePath with
    | some node =>
      simp only [h]
      exact ih _ (nodup_keys_jsMapSet _ _ _ hN)
    | none =>
      simp only [h]
      exact ih _ hN

lemma createDependencyNode_dependencies (f : ProjectFile) :
    (createDependencyNode f).dependencies = [] := by
  unfold createDependencyNode
  cases f.content <;> rfl

lemma mem_dedupFirst_go (seen l : List (List Char)) (x : List Char) :
    x ∈ dedupFirst.go seen l ↔ x ∈ l ∧ x ∉ seen := by
  induction l generalizing seen with
  | nil => simp [dedupFirst.go]
  | cons y rest ih =>
    by_cases hy : y ∈ seen
    · rw [dedupFirst.go, if_pos hy, ih]
      constructor
      · rintro ⟨hx, hs⟩
        exact ⟨List.mem_cons_of_mem _ hx, hs⟩
      · rintro ⟨hx, hs⟩
        rcases List.mem_cons.mp hx with rfl | hx
        · exact absurd hy hs
        · exact ⟨hx, hs⟩
    · rw [dedupFirst.go, if_neg hy]
      constructor
      · intro hx
        rcases List.mem_cons.mp hx with rfl | hx
        · exact ⟨List.mem_cons_self _ _, hy⟩
        · rw [ih] at hx
          refine ⟨List.mem_cons_of_mem _ hx.1, fun hs => hx.2 (List.mem_cons_of_mem _ hs)⟩
      · rintro ⟨hx, hs⟩
        rcases List.mem_cons.mp hx with rfl | hx
        · exact List.mem_cons_self _ _
        · by_cases hxy : x = y
          · subst hxy; exact List.mem_cons_self _ _
          · exact List.mem_cons_of_mem _ ((ih (y :: seen)).mpr ⟨hx, by
              intro hm
              rcases List.mem_cons.mp hm with h1 | h1
              · exact hxy h1
              · exact hs h1⟩)

lemma mem_dedupFirst (l : List (List Char)) (x : List Char) :
    x ∈ dedupFirst l ↔ x ∈ l := by
  rw [dedupFirst, mem_dedupFirst_go]
  simp

lemma nodup_dedupFirst_go (seen l : List (List Char)) :
    (dedupFirst.go seen l).Nodup := by
  induction l generalizing seen with
  | nil => exact List.nodup_nil
  | cons y rest ih =>
    by_cases hy : y ∈ seen
    · rw [dedupFirst.go, if_pos hy]
      exact ih seen
    · rw [dedupFirst.go, if_neg hy]
      refine List.nodup_cons.mpr ⟨fun hm => ?_, ih (y :: seen)⟩
      exact ((mem_dedupFirst_go _ _ _).mp hm).2 (List.mem_cons_self _ _)

lemma nodup_dedupFirst (l : List (List Char)) : (dedupFirst l).Nodup :=
  nodup_dedupFirst_go [] l

lemma mem_analyze_dependencies (g : Graph) (n : DependencyNode) (d : List Char)
    (h : d ∈ (analyzeDependencies g n).dependencies) :
    d ∈ n.dependencies ∨ jsMapHas g d = true := by
  unfold analyzeDependencies at h
  simp only at h
  rw [mem_dedupFirst] at h
  rcases List.mem_append.mp h with h1 | h1
  · exact Or.inl h1
  · obtain ⟨imp, _, himp⟩ := List.mem_filterMap.mp h1
    split at himp
    next p heq =>
      by_cases hhas : jsMapHas g p = true
      · rw [if_pos hhas] at himp
        have hp : p = d := by cases himp; rfl
        exact Or.inr (hp ▸ hhas)
      · rw [if_neg hhas] at himp
        exact absurd himp (by simp)
    next heq => exact absurd himp (by simp)

end DepGraph

namespace DepGraph

lemma jsMapGet_buildFold_values (files : List ProjectFile) (acc : Graph)
    (k : List Char) (v : DependencyNode)
    (h : jsMapGet
      (files.foldl
        (fun g f => if shouldIncludeFile f then jsMapSet g f.relativePath (createDependencyNode f) else g)
        acc) k = some v) :
    jsMapGet acc k = some v ∨ ∃ f ∈ files, v = createDependencyNode f := by
  induction files generalizing acc with
  | nil => exact Or.inl h
  | cons f rest ih =>
    rw [List.foldl_cons] at h
    by_cases hInc : shouldIncludeFile f
    · rw [if_pos hInc] at h
      rcases ih _ h with h1 | ⟨f2, hf2, hv⟩
      · rw [jsMapGet_jsMapSet] at h1
        by_cases hk : k = f.relativePath
        · rw [if_pos hk] at h1
          exact Or.inr ⟨f, List.mem_cons_self _ _, ((Option.some.injEq _ _).mp h1).symm⟩
        · rw [if_neg hk] at h1
          exact Or.inl h1
      · exact Or.inr ⟨f2, List.mem_cons_of_mem _ hf2, hv⟩
    · rw [if_neg hInc] at h
      rcases ih _ h with h1 | ⟨f2, hf2, hv⟩
      · exact Or.inl h1
      · exact Or.inr ⟨f2, List.mem_cons_of_mem _ hf2, hv⟩

lemma jsMapGet_buildStep1_values (files : List ProjectFile) (k : List Char)
    (v : DependencyNode) (h : jsMapGet (buildStep1 files) k = some v) :
    ∃ f ∈ files, v = createDependencyNode f := by
  rcases jsMapGet_buildFold_values files [] k v h with h1 | h1
  · exact absurd h1 (by simp [jsMapGet])
  · exact h1

lemma build_deps_are_keys (files : List ProjectFile) (k : List Char)
    (A : DependencyNode) (hA : jsMapGet (buildDependencyGraph files) k = some A) :
    ∀ d ∈ A.dependencies, jsMapHas (buildDependencyGraph files) d = true := by
  intro d hd
  rw [buildDependencyGraph, jsMapGet_buildReverse] at hA
  cases h2 : jsMapGet (buildStep2 files) k with
  | none => rw [h2] at hA; exact absurd hA (by simp)
  | some A2 =>
    rw [h2] at hA
    have hAdef : A = entApply k ((buildStep2 files).map fun e => (e.1, clearDependents e.2))
        (clearDependents A2) := ((Option.some.injEq _ _).mp hA).symm
    have hAdeps : A.dependencies = A2.dependencies := by
      rw [hAdef, entApply_dependencies, clearDependents_dependencies]
    rw [hAdeps] at hd
    rw [buildStep2, jsMapGet_mapVals] at h2
    cases h1 : jsMapGet (buildStep1 files) k with
    | none => rw [h1] at h2; exact absurd h2 (by simp)
    | some A1 =>
      rw [h1] at h2
      have hA2def : A2 = analyzeDependencies (buildStep1 files) A1 :=
        ((Option.some.injEq _ _).mp h2).symm
      rw [hA2def] at hd
      rcases mem_analyze_dependencies _ _ _ hd with h3 | h3
      · obtain ⟨f, _, hfv⟩ := jsMapGet_buildStep1_values files k A1 h1
        rw [hfv, createDependencyNode_dependencies] at h3
        exact absurd h3 (List.not_mem_nil d)
      · rw [jsMapHas_iff_mem_keys] at h3 ⊢
        rw [buildDependencyGraph, keys_buildReverse, buildStep2, keys_mapVals]
        exact h3

end DepGraph

namespace DepGraph

/-- C1 (amended): after every full build, for all stored nodes A and B,
`B ∈ A.dependencies ↔ A ∈ B.dependents`, and every key in any node's
`dependencies` exists as a node of the graph; after every incremental
update the bidirectional equivalence between stored nodes still holds —
but (see `C1_counterexample`) an update that deletes a node other nodes
still depend on leaves those nodes' `dependencies` pointing at a key that
is no longer in the graph, so the existence half fails for updates. -/
theorem C1_theorem (files updatedFiles : List ProjectFile) :
    (∀ kA kB A B,
        jsMapGet (mgrInit files).graph kA = some A →
        jsMapGet (mgrInit files).graph kB = some B →
        (kB ∈ A.dependencies ↔ kA ∈ B.dependents)) ∧
    (∀ kA A, jsMapGet (mgrInit files).graph kA = some A →
        ∀ d ∈ A.dependencies, jsMapHas (mgrInit files).graph d = true) ∧
    (∀ kA kB A B,
        jsMapGet (updateGraph (mgrInit files) updatedFiles).graph kA = some A →
        jsMapGet (updateGraph (mgrInit files) updatedFiles).graph kB = some B →
        (kB ∈ A.dependencies ↔ kA ∈ B.dependents)) := by
  have hg : (mgrInit files).graph = buildDependencyGraph files := rfl
  refine ⟨?_, ?_, ?_⟩
  · intro kA kB A B hA hB
    rw [hg, buildDependencyGraph] at hA hB
    exact bidirectional_of_buildReverse (buildStep2 files) (nodup_keys_buildStep2 files)
      kA kB A B hA hB
  · intro kA A hA
    rw [hg] at hA ⊢
    exact build_deps_are_keys files kA A hA
  · have hupd : (updateGraph (mgrInit files) updatedFiles).graph =
        buildReverseDependencies
          (updatedFiles.foldl
            (fun g f =>
              match jsMapGet g f.relativePath with
              | some node =>
                jsMapSet g f.relativePath (analyzeDependencies g { node with dependencies := [] })
              | none => g)
            (updatedFiles.foldl
              (fun g f =>
                if shouldIncludeFile f then jsMapSet g f.relativePath (createDependencyNode f)
                else jsMapDelete g f.relativePath)
              (mgrInit files).graph)) := rfl
    intro kA kB A B hA hB
    rw [hupd] at hA hB
    refine bidirectional_of_buildReverse _ ?_ kA kB A B hA hB
    exact nodup_keys_updateFold2 _ _ (nodup_keys_updateFold1 _ _ (hg ▸ nodup_keys_build files))

/-- `a.ts` of the C1 delete scenario: `import './b'`. -/
def c1FileA : ProjectFile := mkFile "a.ts" (str "import " ++ sq "./b")

/-- `b.ts` of the C1 delete scenario. -/
def c1FileB : ProjectFile := mkFile "b.ts" (str "export const x = 1")

/-- The update record for `b.ts` after it stops being an includable
source file (its extension no longer passes `_shouldIncludeFile`), which
makes `updateGraph` delete the `b.ts` node. -/
def c1Deleted : ProjectFile :=
  { path := str "b.ts", relativePath := str "b.ts", name := str "b.ts",
    extension := str "", content := none }

/-- C1 counterexample: build a graph where `a.ts` depends on `b.ts`, then
update with a `b.ts` record that `_shouldIncludeFile` rejects.
`updateGraph` deletes the `b.ts` node but re-analyzes only the updated
files, so `a.ts` keeps `b.ts` in its `dependencies` while no `b.ts` node
exists — the claim's "every key in A.dependencies exists as a node in the
graph" fails after a deleting incremental update. -/
theorem C1_counterexample :
    (str "b.ts") ∈
      ((jsMapGet (updateGraph (mgrInit [c1FileA, c1FileB]) [c1Deleted]).graph
        (str "a.ts")).getD emptyNode).dependencies ∧
    jsMapGet (updateGraph (mgrInit [c1FileA, c1FileB]) [c1Deleted]).graph
      (str "b.ts") = none := by
  refine ⟨?_, ?_⟩ <;> decide

/-- Witness for `C1_theorem` on the two-file scenario: the bidirectional
equivalence instantiated at the stored nodes of `a.ts` and `b.ts` after
the full build. -/
theorem C1_theorem_witness :
    (str "b.ts") ∈
        ((jsMapGet (mgrInit [c1FileA, c1FileB]).graph (str "a.ts")).getD
          emptyNode).dependencies ↔
      (str "a.ts") ∈
        ((jsMapGet (mgrInit [c1FileA, c1FileB]).graph (str "b.ts")).getD
          emptyNode).dependents :=
  (C1_theorem [c1FileA, c1FileB] [c1Deleted]).1 (str "a.ts") (str "b.ts") _ _
    (by decide) (by decide)

end DepGraph

namespace DepGraph

lemma extractDotFacts (src : List Char) (h : startsWithL (str ".") src = false) :
    startsWithL (str "./") src = false ∧ startsWithL (str "../") src = false := by
  cases src with
  | nil => exact ⟨rfl, rfl⟩
  | cons c cs =>
    have hc : ¬ ('.' = c) := by
      intro hceq
      subst hceq
      rw [show str "." = ['.'] from rfl] at h
      simp [startsWithL] at h
    constructor
    · show startsWithL ('.' :: '/' :: []) (c :: cs) = false
      simp [startsWithL, hc]
    · show startsWithL ('.' :: '.' :: '/' :: []) (c :: cs) = false
      simp [startsWithL, hc]

/-- A lemma shared by C8 and C10: every node stored by a full build is the
dependency analysis of a step-1 node over the step-1 key set, as far as
its `dependencies` list is concerned. -/
lemma build_node_deps (files : List ProjectFile) (k : List Char) (A : DependencyNode)
    (hA : jsMapGet (buildDependencyGraph files) k = some A) :
    ∃ A1, jsMapGet (buildStep1 files) k = some A1 ∧
      A.dependencies = (analyzeDependencies (buildStep1 files) A1).dependencies := by
  rw [buildDependencyGraph, jsMapGet_buildReverse] at hA
  cases h2 : jsMapGet (buildStep2 files) k with
  | none => rw [h2] at hA; exact absurd hA (by simp)
  | some A2 =>
    rw [h2] at hA
    have hAdef : A = entApply k ((buildStep2 files).map fun e => (e.1, clearDependents e.2))
        (clearDependents A2) := ((Option.some.injEq _ _).mp hA).symm
    have hAdeps : A.dependencies = A2.dependencies := by
      rw [hAdef, entApply_dependencies, clearDependents_dependencies]
    rw [buildStep2, jsMapGet_mapVals] at h2
    cases h1 : jsMapGet (buildStep1 files) k with
    | none => rw [h1] at h2; exact absurd h2 (by simp)
    | some A1 =>
      rw [h1] at h2
      exact ⟨A1, rfl, hAdeps.trans
        (congrArg DependencyNode.dependencies ((Option.some.injEq _ _).mp h2).symm)⟩

/-- C7: a bare package-style specifier (not starting with `.` nor with the
`@/` alias prefix) always resolves to `null` without error, regardless of
the graph and of the importing file; and dependency analysis keeps the
node's `imports` list intact while only ever adding edges whose specifier
actually resolved — so a bare import contributes zero edges. -/
theorem C7_theorem :
    (∀ (g : Graph) (src p : List Char),
        startsWithL (str ".") src = false → startsWithL (str "@/") src = false →
        resolveImportPath g src p = none) ∧
    (∀ (g : Graph) (n : DependencyNode), n.dependencies = [] →
        (analyzeDependencies g n).imports = n.imports ∧
        ∀ d ∈ (analyzeDependencies g n).dependencies,
          ∃ imp ∈ n.imports, resolveImportPath g imp.source n.relativePath = some d) := by
  constructor
  · intro g src p hdot halias
    obtain ⟨h1, h2⟩ := extractDotFacts src hdot
    unfold resolveImportPath
    simp only [h1, h2, Bool.or_self, if_false, halias]
    rfl
  · intro g n hdeps
    refine ⟨rfl, ?_⟩
    intro d hd
    unfold analyzeDependencies at hd
    simp only at hd
    rw [mem_dedupFirst, hdeps, List.nil_append] at hd
    obtain ⟨imp, himp, heq⟩ := List.mem_filterMap.mp hd
    refine ⟨imp, himp, ?_⟩
    split at heq
    next p hres =>
      by_cases hhas : jsMapHas g p = true
      · rw [if_pos hhas] at heq
        have hp : p = d := by cases heq; rfl
        exact hp ▸ hres
      · rw [if_neg hhas] at heq
        exact absurd heq (by simp)
    next hres => exact absurd heq (by simp)

/-- The node of a file whose only import is the bare specifier `lodash`. -/
def c7Node : DependencyNode :=
  createDependencyNode (mkFile "a.ts" (str "import " ++ sq "lodash"))

/-- Witness for `C7_theorem`: the bare specifier `lodash` resolves to
`null` on the empty graph, and analysis of a node importing only `lodash`
keeps its import record and creates no edge. -/
theorem C7_theorem_witness :
    resolveImportPath [] (str "lodash") (str "a.ts") = none ∧
    ((analyzeDependencies [] c7Node).imports = c7Node.imports ∧
     ∀ d ∈ (analyzeDependencies [] c7Node).dependencies,
       ∃ imp ∈ c7Node.imports, resolveImportPath [] imp.source c7Node.relativePath = some d) :=
  ⟨C7_theorem.1 [] (str "lodash") (str "a.ts") (by decide) (by decide),
   C7_theorem.2 [] c7Node (by decide)⟩

/-- C8: edge insertion is idempotent — after `_analyzeDependencies` (which
ends with `[...new Set(...)]`) a node's `dependencies` has no duplicate
keys, both for any analysis in isolation and for every node stored by a
full build; duplicate imports of the same module therefore collapse to a
single edge. -/
theorem C8_theorem :
    (∀ (g : Graph) (n : DependencyNode), ((analyzeDependencies g n).dependencies).Nodup) ∧
    (∀ (files : List ProjectFile) (k : List Char) (A : DependencyNode),
        jsMapGet (mgrInit files).graph k = some A → A.dependencies.Nodup) := by
  constructor
  · intro g n
    unfold analyzeDependencies
    exact nodup_dedupFirst _
  · intro files k A hA
    obtain ⟨A1, _, hdeps⟩ := build_node_deps files k A hA
    rw [hdeps]
    unfold analyzeDependencies
    exact nodup_dedupFirst _

/-- `a.ts` importing the same module `./b` on two lines. -/
def c8FileA : ProjectFile :=
  mkFile "a.ts" (str "import " ++ sq "./b" ++ ['\n'] ++ str "import " ++ sq "./b")

/-- An importable `b.ts`. -/
def c8FileB : ProjectFile := mkFile "b.ts" (str "export const x = 1")

/-- Witness for `C8_theorem`: after a full build over a file importing
`./b` twice, the stored `a.ts` node has duplicate-free dependencies —
which concretely evaluate to the single edge `[b.ts]`. -/
theorem C8_theorem_witness :
    ((jsMapGet (mgrInit [c8FileA, c8FileB]).graph (str "a.ts")).getD
        emptyNode).dependencies.Nodup ∧
    ((jsMapGet (mgrInit [c8FileA, c8FileB]).graph (str "a.ts")).getD
        emptyNode).dependencies = [str "b.ts"] :=
  ⟨C8_theorem.2 [c8FileA, c8FileB] (str "a.ts") _ (by decide), by decide⟩

end DepGraph

namespace DepGraph

lemma asset_not_included (f : ProjectFile) (h : determineFileType f = "asset") :
    shouldIncludeFile f = false := by
  unfold determineFileType at h
  split at h
  · exact absurd h (by decide)
  · split at h
    · exact absurd h (by decide)
    · split at h
      · exact absurd h (by decide)
      · next h3 =>
        unfold shouldIncludeFile
        split
        · rfl
        · simpa using h3

lemma included_not_asset (f : ProjectFile) (h : shouldIncludeFile f = true) :
    determineFileType f ≠ "asset" := by
  intro ha
  rw [asset_not_included f ha] at h
  exact absurd h (by simp)

lemma jsMapGet_buildFold_from (files : List ProjectFile) (acc : Graph)
    (k : List Char) (v : DependencyNode)
    (h : jsMapGet
      (files.foldl
        (fun g f => if shouldIncludeFile f then jsMapSet g f.relativePath (createDependencyNode f) else g)
        acc) k = some v) :
    jsMapGet acc k = some v ∨
      ∃ f ∈ files, f.relativePath = k ∧ shouldIncludeFile f = true ∧
        v = createDependencyNode f := by
  induction files generalizing acc with
  | nil => exact Or.inl h
  | cons f rest ih =>
    rw [List.foldl_cons] at h
    by_cases hInc : shouldIncludeFile f
    · rw [if_pos hInc] at h
      rcases ih _ h with h1 | ⟨f2, hf2, hrel, hinc, hv⟩
      · rw [jsMapGet_jsMapSet] at h1
        by_cases hk : k = f.relativePath
        · rw [if_pos hk] at h1
          exact Or.inr ⟨f, List.mem_cons_self _ _, hk.symm, hInc,
            ((Option.some.injEq _ _).mp h1).symm⟩
        · rw [if_neg hk] at h1
          exact Or.inl h1
      · exact Or.inr ⟨f2, List.mem_cons_of_mem _ hf2, hrel, hinc, hv⟩
    · rw [if_neg hInc] at h
      rcases ih _ h with h1 | ⟨f2, hf2, hrel, hinc, hv⟩
      · exact Or.inl h1
      · exact Or.inr ⟨f2, List.mem_cons_of_mem _ hf2, hrel, hinc, hv⟩

/-- C6 (amended): a file classified "asset" never passes
`_shouldIncludeFile`, and every node of a fully built graph stems from an
included file — whose classification is then never "asset"; but inclusion
is decided by extension and exclude patterns alone, so (see
`C6_counterexample`) a file classified "config" with a source extension
does become a node, contrary to the claim. -/
theorem C6_theorem :
    (∀ f : ProjectFile, determineFileType f = "asset" → shouldIncludeFile f = false) ∧
    (∀ (files : List ProjectFile) (k : List Char) (A : DependencyNode),
        jsMapGet (mgrInit files).graph k = some A →
        ∃ f ∈ files, f.relativePath = k ∧ shouldIncludeFile f = true ∧
          determineFileType f ≠ "asset") := by
  constructor
  · exact asset_not_included
  · intro files k A hA
    obtain ⟨A1, h1, _⟩ := build_node_deps files k A hA
    rw [buildStep1] at h1
    rcases jsMapGet_buildFold_from files [] k A1 h1 with hacc | ⟨f, hf, hrel, hinc, _⟩
    · exact absurd hacc (by simp [jsMapGet])
    · exact ⟨f, hf, hrel, hinc, included_not_asset f hinc⟩

/-- `vite.config.ts`: classified "config" yet carrying the source
extension `.ts`. -/
def c6ConfigFile : ProjectFile := mkFile "vite.config.ts" (str "export default x")

/-- C6 counterexample: `vite.config.ts` is classified Config (its path
contains `config`), yet `_shouldIncludeFile` accepts it (source extension,
no exclude-pattern hit) and a full build stores it as a graph node — so a
Config-classified file *does* become a node of the dependency graph. -/
theorem C6_counterexample :
    determineFileType c6ConfigFile = "config" ∧
    shouldIncludeFile c6ConfigFile = true ∧
    (jsMapGet (mgrInit [c6ConfigFile]).graph (str "vite.config.ts")).isSome = true := by
  refine ⟨?_, ?_, ?_⟩ <;> decide

/-- An asset file (a PNG). -/
def c6AssetFile : ProjectFile :=
  { path := str "logo.png", relativePath := str "logo.png", name := str "logo.png",
    extension := str ".png", content := none }

/-- Witness for `C6_theorem`: the PNG is excluded, and the single stored
node of the `vite.config.ts` build stems from an included, non-asset file. -/
theorem C6_theorem_witness :
    shouldIncludeFile c6AssetFile = false ∧
    (∃ f ∈ [c6ConfigFile], f.relativePath = str "vite.config.ts" ∧
      shouldIncludeFile f = true ∧ determineFileType f ≠ "asset") :=
  ⟨C6_theorem.1 c6AssetFile (by decide),
   C6_theorem.2 [c6ConfigFile] (str "vite.config.ts")
     ((jsMapGet (mgrInit [c6ConfigFile]).graph (str "vite.config.ts")).getD emptyNode)
     (by decide)⟩

end DepGraph

namespace DepGraph

lemma length_flatMapL {α β : Type} (l : List α) (f : α → List β) :
    (l.flatMap f).length = (l.map fun x => (f x).length).sum := by
  induction l with
  | nil => rfl
  | cons x rest ih => simp [List.flatMap_cons, ih]

lemma foldl_add_eq_sum {α : Type} (f : α → Nat) (l : List α) (n : Nat) :
    l.foldl (fun acc e => acc + f e) n = n + (l.map f).sum := by
  induction l generalizing n with
  | nil => simp
  | cons x rest ih => simp [List.foldl_cons, ih, Nat.add_assoc]

/-- C10: whenever `getGraphVisualization` succeeds, the visualization is
internally consistent with its own metrics: the node list is as long as
`metrics.totalNodes`, the edge list is as long as `metrics.totalEdges`,
and each `GraphNode` carries exactly the lengths of the underlying node's
`dependencies` and `dependents` as its two counts. -/
theorem C10_theorem (st : ManagerState) (v : DependencyGraphVisualization)
    (h : getGraphVisualization st = .ok v) :
    v.nodes.length = v.metrics.totalNodes ∧
    v.edges.length = v.metrics.totalEdges ∧
    ∀ gn ∈ v.nodes, ∃ e ∈ st.graph, gn.id = e.1 ∧
      gn.dependencyCount = e.2.dependencies.length ∧
      gn.dependentCount = e.2.dependents.length := by
  unfold getGraphVisualization at h
  split at h
  · exact absurd h (by simp)
  · have hv : v =
        { nodes := st.graph.map fun e =>
            { id := e.1, label := basenameP e.1, type := e.2.type,
              dependencyCount := e.2.dependencies.length,
              dependentCount := e.2.dependents.length },
          edges := st.graph.flatMap fun e =>
            e.2.dependencies.map fun dep =>
              { fromFile := e.1, toFile := dep, type := "dependency" },
          metrics := calculateGraphMetrics st.graph } :=
      ((Except.ok.injEq _ _).mp h).symm
    subst hv
    refine ⟨?_, ?_, ?_⟩
    · show (st.graph.map _).length = (calculateGraphMetrics st.graph).totalNodes
      rw [List.length_map]
      rfl
    · show (st.graph.flatMap _).length = (calculateGraphMetrics st.graph).totalEdges
      have hm : (calculateGraphMetrics st.graph).totalEdges =
          st.graph.foldl (fun acc e => acc + e.2.dependencies.length) 0 := rfl
      rw [hm, length_flatMapL,
        foldl_add_eq_sum (fun e : List Char × DependencyNode => e.2.dependencies.length)
          st.graph 0]
      simp [List.length_map]
    · intro gn hgn
      obtain ⟨e, he, rfl⟩ := List.mem_map.mp hgn
      exact ⟨e, he, rfl, rfl, rfl⟩

/-- The all-empty visualization, used only as an `Option.getD` default in
the closed witness statement. -/
def emptyViz : DependencyGraphVisualization :=
  { nodes := [], edges := [],
    metrics := { totalNodes := 0, totalEdges := 0, averageDepth := 0, maxDepth := 0 } }

/-- Witness for `C10_theorem` on the built three-file C5 scenario. -/
theorem C10_theorem_witness :
    (let v := (getGraphVisualization c5St).toOption.getD emptyViz
     v.nodes.length = v.metrics.totalNodes ∧
     v.edges.length = v.metrics.totalEdges ∧
     ∀ gn ∈ v.nodes, ∃ e ∈ c5St.graph, gn.id = e.1 ∧
       gn.dependencyCount = e.2.dependencies.length ∧
       gn.dependentCount = e.2.dependents.length) :=
  C10_theorem c5St ((getGraphVisualization c5St).toOption.getD emptyViz) rfl

end DepGraph

namespace DepGraph

lemma scan_at_head {α : Type} (m : List Char → Option α) (l : List Char) (r : α)
    (h : m l = some r) : scan m l = some r := by
  cases l with
  | nil => exact h
  | cons c t =>
    unfold scan
    rw [h]

lemma litP_self (s t : List Char) : litP s (s ++ t) = some t := by
  induction s with
  | nil => rfl
  | cons c cs ih => simp [litP, ih]

lemma dropWsL_cons_ws (c : Char) (l : List Char) (h : isJsWs c = true) :
    dropWsL (c :: l) = dropWsL l := by
  unfold dropWsL
  rw [List.dropWhile_cons, if_pos h]

lemma dropWsL_cons_not (c : Char) (l : List Char) (h : isJsWs c = false) :
    dropWsL (c :: l) = c :: l := by
  unfold dropWsL
  rw [List.dropWhile_cons, if_neg (by simp [h])]

lemma takeWhile_append_all {p : Char → Bool} (s t : List Char)
    (h : ∀ c ∈ s, p c = true) : (s ++ t).takeWhile p = s ++ t.takeWhile p := by
  induction s with
  | nil => rfl
  | cons c cs ih =>
    rw [List.cons_append, List.takeWhile_cons, if_pos (h c (List.mem_cons_self _ _)),
      List.cons_append, ih fun d hd => h d (List.mem_cons_of_mem _ hd)]

lemma dropWhile_append_all {p : Char → Bool} (s t : List Char)
    (h : ∀ c ∈ s, p c = true) : (s ++ t).dropWhile p = t.dropWhile p := by
  induction s with
  | nil => rfl
  | cons c cs ih =>
    rw [List.cons_append, List.dropWhile_cons, if_pos (h c (List.mem_cons_self _ _)),
      ih fun d hd => h d (List.mem_cons_of_mem _ hd)]

lemma cap1_append {p : Char → Bool} (s : List Char) (c : Char) (t : List Char)
    (hs : ∀ d ∈ s, p d = true) (hc : p c = false) (hne : s ≠ []) :
    cap1 p (s ++ c :: t) = some (s, c :: t) := by
  have h1 : (s ++ c :: t).takeWhile p = s := by
    rw [takeWhile_append_all s (c :: t) hs, List.takeWhile_cons, if_neg (by simp [hc]),
      List.append_nil]
  have h2 : (s ++ c :: t).dropWhile p = c :: t := by
    rw [dropWhile_append_all s (c :: t) hs, List.dropWhile_cons, if_neg (by simp [hc])]
  unfold cap1
  rw [h1, h2]
  cases s with
  | nil => exact absurd rfl hne
  | cons d s2 => simp

lemma splitOnChar_no_sep (sep : Char) (l : List Char) (h : ∀ c ∈ l, ¬ c = sep) :
    splitOnChar sep l = [l] := by
  induction l with
  | nil => rfl
  | cons c t ih =>
    rw [splitOnChar, if_neg (h c (List.mem_cons_self _ _)),
      ih fun d hd => h d (List.mem_cons_of_mem _ hd)]

lemma splitOnChar_append_sep (sep : Char) (s t : List Char)
    (hs : ∀ c ∈ s, ¬ c = sep) :
    splitOnChar sep (s ++ sep :: t) = s :: splitOnChar sep t := by
  induction s with
  | nil =>
    rw [List.nil_append, splitOnChar, if_pos rfl]
  | cons c s2 ih =>
    rw [List.cons_append, splitOnChar, if_neg (hs c (List.mem_cons_self _ _)),
      ih fun d hd => hs d (List.mem_cons_of_mem _ hd)]

lemma jsTrim_append_last (A : List Char) (c : Char) (hcWs : isJsWs c = false)
    (hhead : ∃ d t, A ++ [c] = d :: t ∧ isJsWs d = false) :
    jsTrim (A ++ [c]) = A ++ [c] := by
  obtain ⟨d, t, heq, hd⟩ := hhead
  unfold jsTrim
  rw [heq, List.dropWhile_cons, if_neg (by simp [hd]), ← heq,
    show (A ++ [c]).reverse = c :: A.reverse by simp,
    List.dropWhile_cons, if_neg (by simp [hcWs])]
  simp

lemma jsTrim_enclosed (w1 core w2 : List Char)
    (hw1 : ∀ c ∈ w1, isJsWs c = true) (hw2 : ∀ c ∈ w2, isJsWs c = true)
    (hcore : ∀ c ∈ core, isJsWs c = false) (hne : core ≠ []) :
    jsTrim (w1 ++ core ++ w2) = core := by
  unfold jsTrim
  rw [List.append_assoc, dropWhile_append_all w1 (core ++ w2) hw1]
  obtain ⟨c, t, rfl⟩ : ∃ c t, core = c :: t := by
    cases core with
    | nil => exact absurd rfl hne
    | cons c t => exact ⟨c, t, rfl⟩
  rw [List.cons_append, List.dropWhile_cons,
    if_neg (by simp [hcore c (List.mem_cons_self _ _)]), ← List.cons_append,
    List.reverse_append, dropWhile_append_all _ _ (fun d hd => hw2 d (List.mem_reverse.mp hd))]
  cases hrev : (c :: t).reverse with
  | nil => exact absurd hrev (by simp)
  | cons c2 t2 =>
    have hc2 : c2 ∈ c :: t := by
      rw [← List.mem_reverse, hrev]
      exact List.mem_cons_self _ _
    rw [List.dropWhile_cons, if_neg (by simp [hcore c2 hc2]), ← hrev, List.reverse_reverse]

end DepGraph

namespace DepGraph

/-- The line shape of the C9 claim: `import { a, b } from "X"`. -/
def renderNamedImportLine (a b X : List Char) : List Char :=
  str "import " ++ [lbrace] ++ str " " ++ a ++ str ", " ++ b ++ str " " ++ [rbrace] ++
    str " from " ++ [dquote] ++ X ++ [dquote]

lemma str_blank : str " " = [' '] := rfl

lemma str_comma_blank : str ", " = [',', ' '] := rfl

lemma str_import_blank : str "import " = impTok ++ [' '] := rfl

lemma forall_mem_inner {P : Char → Prop} (a b : List Char)
    (hblank : P ' ') (hcomma : P ',')
    (haP : ∀ c ∈ a, P c) (hbP : ∀ c ∈ b, P c) :
    ∀ d ∈ str " " ++ a ++ str ", " ++ b ++ str " ", P d := by
  intro d hd
  rcases List.mem_append.mp hd with h1 | h1
  · rcases List.mem_append.mp h1 with h2 | h2
    · rcases List.mem_append.mp h2 with h3 | h3
      · rcases List.mem_append.mp h3 with h4 | h4
        · rw [str_blank, List.mem_singleton] at h4
          subst h4; exact hblank
        · exact haP d h4
      · rw [str_comma_blank] at h3
        rcases List.mem_cons.mp h3 with rfl | h4
        · exact hcomma
        · rw [List.mem_singleton] at h4
          subst h4; exact hblank
    · exact hbP d h2
  · rw [str_blank, List.mem_singleton] at h1
    subst h1; exact hblank

lemma matchNamedAt_render (a b X : List Char)
    (hX : X ≠ [])
    (haC : ∀ c ∈ a, isJsWs c = false ∧ c ≠ ',' ∧ c ≠ rbrace)
    (hbC : ∀ c ∈ b, isJsWs c = false ∧ c ≠ ',' ∧ c ≠ rbrace)
    (hXC : ∀ c ∈ X, isJsWs c = false ∧ c ≠ squote ∧ c ≠ dquote) :
    matchNamedAt (renderNamedImportLine a b X) =
      some (str " " ++ a ++ str ", " ++ b ++ str " ", X) := by
  have h0 : renderNamedImportLine a b X =
      impTok ++ (str " " ++ ([lbrace] ++ (str " " ++ a ++ str ", " ++ b ++ str " " ++
        [rbrace] ++ (str " from " ++ ([dquote] ++ (X ++ [dquote])))))) := by
    simp [renderNamedImportLine, str_import_blank, str_blank, List.append_assoc]
  have h1 : dropWsL (str " " ++ ([lbrace] ++ (str " " ++ a ++ str ", " ++ b ++ str " " ++
        [rbrace] ++ (str " from " ++ ([dquote] ++ (X ++ [dquote])))))) =
      lbrace :: (str " " ++ a ++ str ", " ++ b ++ str " " ++
        [rbrace] ++ (str " from " ++ ([dquote] ++ (X ++ [dquote])))) := by
    rw [str_blank, List.singleton_append, dropWsL_cons_ws _ _ (by decide)]
    exact dropWsL_cons_not _ _ (by decide)
  have hsInner : ∀ d ∈ str " " ++ a ++ str ", " ++ b ++ str " ",
      (!(d = rbrace) : Bool) = true := by
    refine forall_mem_inner a b (by decide) (by decide) ?_ ?_
    · intro c hc; simp [(haC c hc).2.2]
    · intro c hc; simp [(hbC c hc).2.2]
  have hcap : cap1 (fun d => !(d = rbrace))
      (str " " ++ a ++ str ", " ++ b ++ str " " ++
        [rbrace] ++ (str " from " ++ ([dquote] ++ (X ++ [dquote])))) =
      some (str " " ++ a ++ str ", " ++ b ++ str " ",
        rbrace :: (str " from " ++ ([dquote] ++ (X ++ [dquote])))) := by
    have hassoc : str " " ++ a ++ str ", " ++ b ++ str " " ++
        [rbrace] ++ (str " from " ++ ([dquote] ++ (X ++ [dquote]))) =
        (str " " ++ a ++ str ", " ++ b ++ str " ") ++
          rbrace :: (str " from " ++ ([dquote] ++ (X ++ [dquote]))) := by
      simp [List.append_assoc]
    rw [hassoc]
    refine cap1_append _ _ _ hsInner (by decide) ?_
    rw [str_blank]
    simp
  have h2 : dropWsL (str " from " ++ ([dquote] ++ (X ++ [dquote]))) =
      fromTok ++ (str " " ++ ([dquote] ++ (X ++ [dquote]))) := by
    rw [show str " from " ++ ([dquote] ++ (X ++ [dquote])) =
      ' ' :: (str "from " ++ ([dquote] ++ (X ++ [dquote]))) from rfl]
    rw [dropWsL_cons_ws _ _ (by decide)]
    exact dropWsL_cons_not _ _ (by decide)
  have h3 : dropWsL (str " " ++ ([dquote] ++ (X ++ [dquote]))) =
      dquote :: (X ++ [dquote]) := by
    rw [str_blank, List.singleton_append, dropWsL_cons_ws _ _ (by decide)]
    exact dropWsL_cons_not _ _ (by decide)
  have hcapX : cap1 (fun d => !(isQuote d)) (X ++ [dquote]) =
      some (X, [dquote]) := by
    refine cap1_append _ _ _ ?_ (by decide) hX
    intro d hd
    have hX2 := hXC d hd
    simp [isQuote, hX2.2.1, hX2.2.2]
  rw [matchNamedAt, h0, litP_self]
  simp only [h1, hcap, h2, h3, hcapX, litP_self, if_pos rfl,
    if_pos (by decide : isQuote dquote = true)]
  simp

end DepGraph

namespace DepGraph

lemma not_nl_of_not_ws (c : Char) (h : isJsWs c = false) : ¬ c = '\n' := by
  intro he
  subst he
  exact absurd h (by decide)

lemma forall_mem_render {P : Char → Prop} (a b X : List Char)
    (hlit : ∀ c ∈ str "import ", P c) (hlb : P lbrace) (hrb : P rbrace)
    (hblank : P ' ') (hcomma : P ',') (hfrom : ∀ c ∈ str " from ", P c) (hdq : P dquote)
    (haP : ∀ c ∈ a, P c) (hbP : ∀ c ∈ b, P c) (hXP : ∀ c ∈ X, P c) :
    ∀ d ∈ renderNamedImportLine a b X, P d := by
  intro d hd
  rw [renderNamedImportLine] at hd
  rcases List.mem_append.mp hd with h1 | h1
  · rcases List.mem_append.mp h1 with h2 | h2
    · rcases List.mem_append.mp h2 with h3 | h3
      · rcases List.mem_append.mp h3 with h4 | h4
        · rcases List.mem_append.mp h4 with h5 | h5
          · rcases List.mem_append.mp h5 with h6 | h6
            · rcases List.mem_append.mp h6 with h7 | h7
              · rcases List.mem_append.mp h7 with h8 | h8
                · rcases List.mem_append.mp h8 with h9 | h9
                  · rcases List.mem_append.mp h9 with h10 | h10
                    · rcases List.mem_append.mp h10 with h11 | h11
                      · exact hlit d h11
                      · rw [List.mem_singleton] at h11
                        subst h11; exact hlb
                    · rw [str_blank, List.mem_singleton] at h10
                      subst h10; exact hblank
                  · exact haP d h9
                · rw [str_comma_blank] at h8
                  rcases List.mem_cons.mp h8 with rfl | h9
                  · exact hcomma
                  · rw [List.mem_singleton] at h9
                    subst h9; exact hblank
              · exact hbP d h7
            · rw [str_blank, List.mem_singleton] at h6
              subst h6; exact hblank
          · rw [List.mem_singleton] at h5
            subst h5; exact hrb
        · exact hfrom d h4
      · rw [List.mem_singleton] at h3
        subst h3; exact hdq
    · exact hXP d h2
  · rw [List.mem_singleton] at h1
    subst h1; exact hdq

end DepGraph

namespace DepGraph

/-- C9: a JS/TS line of the shape `import { a, b } from "X"` (identifier
names without whitespace, commas or `}`, a quote-free non-empty specifier)
extracts to exactly one `ImportInfo` with source `X`, imports `[a, b]`,
both flags false and line number 1; and a line on which all four patterns
fail (named, default, namespace, side-effect — tested in that fixed
order, as the second and third conjuncts show) contributes no record. -/
theorem C9_theorem (a b X : List Char)
    (ha : a ≠ []) (hb : b ≠ []) (hX : X ≠ [])
    (haC : ∀ c ∈ a, isJsWs c = false ∧ c ≠ ',' ∧ c ≠ rbrace)
    (hbC : ∀ c ∈ b, isJsWs c = false ∧ c ≠ ',' ∧ c ≠ rbrace)
    (hXC : ∀ c ∈ X, isJsWs c = false ∧ c ≠ squote ∧ c ≠ dquote) :
    parseImports (renderNamedImportLine a b X) (str ".ts") =
      [{ source := X, imports := [a, b], isDefaultImport := false,
         isNamespaceImport := false, lineNumber := 1 }] ∧
    (∀ (line : List Char) (n : Nat) (inner src : List Char),
        scan matchNamedAt line = some (inner, src) →
        parseJavaScriptImport line n =
          some { source := src, imports := (splitOnChar ',' inner).map jsTrim,
                 isDefaultImport := false, isNamespaceImport := false, lineNumber := n }) ∧
    (∀ (line : List Char) (n : Nat),
        scan matchNamedAt line = none → scan matchDefaultAt line = none →
        scan matchNamespaceAt line = none → scan matchSideEffectAt line = none →
        parseJavaScriptImport line n = none) := by
  refine ⟨?_, ?_, ?_⟩
  · have hscan : scan matchNamedAt (renderNamedImportLine a b X) =
        some (str " " ++ a ++ str ", " ++ b ++ str " ", X) :=
      scan_at_head _ _ _ (matchNamedAt_render a b X hX haC hbC hXC)
    have hsplit : splitOnChar ',' (str " " ++ a ++ str ", " ++ b ++ str " ") =
        [str " " ++ a, str " " ++ b ++ str " "] := by
      have hassoc : str " " ++ a ++ str ", " ++ b ++ str " " =
          (str " " ++ a) ++ ',' :: (str " " ++ b ++ str " ") := by
        simp [str_comma_blank, str_blank, List.append_assoc]
      rw [hassoc, splitOnChar_append_sep]
      · rw [splitOnChar_no_sep]
        intro c hc
        rcases List.mem_append.mp hc with h1 | h1
        · rcases List.mem_append.mp h1 with h2 | h2
          · rw [str_blank, List.mem_singleton] at h2
            subst h2; decide
          · exact (hbC c h2).2.1
        · rw [str_blank, List.mem_singleton] at h1
          subst h1; decide
      · intro c hc
        rcases List.mem_append.mp hc with h1 | h1
        · rw [str_blank, List.mem_singleton] at h1
          subst h1; decide
        · exact (haC c h1).2.1
    have htrim1 : jsTrim (str " " ++ a) = a := by
      have h := jsTrim_enclosed (str " ") a []
        (by intro c hc; rw [str_blank, List.mem_singleton] at hc; subst hc; decide)
        (by intro c hc; exact absurd hc (List.not_mem_nil c))
        (fun c hc => (haC c hc).1) ha
      rwa [List.append_nil] at h
    have htrim2 : jsTrim (str " " ++ b ++ str " ") = b :=
      jsTrim_enclosed (str " ") b (str " ")
        (by intro c hc; rw [str_blank, List.mem_singleton] at hc; subst hc; decide)
        (by intro c hc; rw [str_blank, List.mem_singleton] at hc; subst hc; decide)
        (fun c hc => (hbC c hc).1) hb
    have hjs : parseJavaScriptImport (renderNamedImportLine a b X) 1 =
        some { source := X, imports := [a, b], isDefaultImport := false,
               isNamespaceImport := false, lineNumber := 1 } := by
      rw [parseJavaScriptImport, hscan]
      simp [hsplit, htrim1, htrim2]
      rw [show str " " ++ (a ++ (str ", " ++ (b ++ str " "))) =
          str " " ++ a ++ str ", " ++ b ++ str " " from by simp [List.append_assoc], hsplit]
      simp only [List.map_cons, List.map_nil, htrim1, htrim2]
    have hnl : ∀ c ∈ renderNamedImportLine a b X, ¬ c = '\n' :=
      forall_mem_render a b X (by decide) (by decide) (by decide) (by decide)
        (by decide) (by decide) (by decide)
        (fun c hc => not_nl_of_not_ws c (haC c hc).1)
        (fun c hc => not_nl_of_not_ws c (hbC c hc).1)
        (fun c hc => not_nl_of_not_ws c (hXC c hc).1)
    have htrimline : jsTrim (renderNamedImportLine a b X) = renderNamedImportLine a b X := by
      have h := jsTrim_append_last
        (str "import " ++ [lbrace] ++ str " " ++ a ++ str ", " ++ b ++ str " " ++
          [rbrace] ++ str " from " ++ [dquote] ++ X) dquote (by decide)
        ⟨'i', _, rfl, by decide⟩
      exact h
    rw [parseImports, splitOnChar_no_sep '\n' _ hnl]
    simp only [List.enum, List.enumFrom, List.filterMap_cons, List.filterMap_nil]
    rw [show isJsExtension (str ".ts") = true from rfl]
    simp [htrimline, hjs]
  · intro line n inner src hmatch
    rw [parseJavaScriptImport, hmatch]
  · intro line n h1 h2 h3 h4
    rw [parseJavaScriptImport, h1, h2, h3, h4]

end DepGraph

namespace DepGraph

/-- Witness for `C9_theorem`: the line `import { a, b } from "./m"`
extracts to the single expected record. -/
theorem C9_theorem_witness :
    parseImports (renderNamedImportLine (str "a") (str "b") (str "./m")) (str ".ts") =
      [{ source := str "./m", imports := [str "a", str "b"], isDefaultImport := false,
         isNamespaceImport := false, lineNumber := 1 }] :=
  (C9_theorem (str "a") (str "b") (str "./m") (by decide) (by decide) (by decide)
    (by decide) (by decide) (by decide)).1

end DepGraph
